import Mathlib

/-!
Verification of the planning-and-simulation engine of the visual-complexity
repository (grid world, MDP value-iteration solver, A* replanning solver,
agent dynamics).

The TypeScript sources are shallowly embedded:

* machine numbers (TS `number`, `Float32Array` entries) are modelled as `ℚ`;
  every arithmetic operation the planners perform on the values involved is
  exact at these magnitudes, so the rational model is faithful;
* the four cardinal policy angles (radians `π/2, 0, -π/2, π` in the source)
  are represented in units of π as the rationals `1/2, 0, -1/2, 1`; the
  encoding is injective and maps the `0` used by `Float32Array.fill(0)` to
  the same value as the `0` radians of the Right action, exactly as in the
  source;
* the dense `Float32Array`s `values` / `policy` are modelled as total
  functions `ℤ → ℚ` indexed by the flat row-major index `y * width + x`;
  only indices in `[0, width*height)` are ever addressed by the code;
* `Map<number, WindConfig>` (insertion ordered, set-in-place) is modelled as
  an association list keyed by the cell coordinates, updated in place;
* the eagerly recomputed `windField` array is modelled by computing the same
  accumulation on demand (`recalculateWindField` runs after every mutation in
  the source, so the stored field always equals this recomputation).
-/

/-- Cell types of `GridSystem.ts` (`Empty = 0, Wall = 1, Wind = 2, Goal = 3`). -/
inductive CellType where
  | Empty
  | Wall
  | Wind
  | Goal
deriving DecidableEq, Repr

/-- `WindConfig` of `GridSystem.ts`: a direction `(dx, dy)` and a force. -/
structure WindConfig where
  dx : ℤ
  dy : ℤ
  force : ℤ
deriving DecidableEq, Repr

/-- `GridSystem` of `GridSystem.ts`: the cell grid plus the wind sources.
`cells` is the dense cell array as a function of the (possibly out-of-range)
coordinates; `windConfigs` is the insertion-ordered map of wind sources. -/
structure GridSystem where
  width : ℕ
  height : ℕ
  cells : ℤ → ℤ → CellType
  windConfigs : List ((ℤ × ℤ) × WindConfig)

/-- `isValid` of `GridSystem.ts`. -/
def GridSystem.isValid (g : GridSystem) (x y : ℤ) : Prop :=
  0 ≤ x ∧ x < (g.width : ℤ) ∧ 0 ≤ y ∧ y < (g.height : ℤ)

instance (g : GridSystem) (x y : ℤ) : Decidable (g.isValid x y) := by
  unfold GridSystem.isValid
  infer_instance

/-- `getFlatIndex` of `GridSystem.ts`: `y * width + x`. -/
def GridSystem.getFlatIndex (g : GridSystem) (x y : ℤ) : ℤ :=
  y * (g.width : ℤ) + x

/-- `getCell` of `GridSystem.ts`: out-of-bounds coordinates read as `Wall`. -/
def GridSystem.getCell (g : GridSystem) (x y : ℤ) : CellType :=
  if g.isValid x y then g.cells x y else CellType.Wall

/-- Association-list lookup mirroring `Map.get` (both `windConfigs` and the
A* `cameFrom` map are ES `Map`s in the source). -/
def mapLookup {κ ν : Type} [DecidableEq κ] (l : List (κ × ν)) (k : κ) :
    Option ν :=
  (l.find? (fun e => decide (e.1 = k))).map (fun e => e.2)

/-- Association-list removal mirroring `Map.delete`. -/
def mapErase {κ ν : Type} [DecidableEq κ] (l : List (κ × ν)) (k : κ) :
    List (κ × ν) :=
  l.filter (fun e => decide (e.1 ≠ k))

/-- Association-list insertion mirroring `Map.set`: an existing key keeps its
position and gets the new value, a new key is appended at the end. -/
def mapUpsert {κ ν : Type} [DecidableEq κ] (l : List (κ × ν)) (k : κ) (v : ν) :
    List (κ × ν) :=
  if (l.find? (fun e => decide (e.1 = k))).isSome then
    l.map (fun e => if e.1 = k then (k, v) else e)
  else
    l ++ [(k, v)]

/-- `reset` of `GridSystem.ts`: all cells `Empty`, wind map cleared. -/
def GridSystem.reset (g : GridSystem) : GridSystem :=
  { g with cells := fun _ _ => CellType.Empty, windConfigs := [] }

/-- The freshly constructed `GridSystem(width, height)` (constructor calls
`reset`). -/
def mkGrid (w h : ℕ) : GridSystem :=
  { width := w, height := h, cells := fun _ _ => CellType.Empty, windConfigs := [] }

/-- `setCell` of `GridSystem.ts`: no-op out of range; writing a non-`Wind`
type deletes the wind configuration stored at that cell. -/
def GridSystem.setCell (g : GridSystem) (x y : ℤ) (t : CellType) : GridSystem :=
  if g.isValid x y then
    { g with
      cells := fun a b => if a = x ∧ b = y then t else g.cells a b,
      windConfigs := if t ≠ CellType.Wind then mapErase g.windConfigs (x, y)
                     else g.windConfigs }
  else g

/-- `setWindConfig` of `GridSystem.ts`: no-op out of range; otherwise stores
the configuration unconditionally (no check of the cell's type). -/
def GridSystem.setWindConfig (g : GridSystem) (x y dx dy force : ℤ) : GridSystem :=
  if g.isValid x y then
    { g with windConfigs := mapUpsert g.windConfigs (x, y) ⟨dx, dy, force⟩ }
  else g

/-- `getWindConfig` of `GridSystem.ts`. -/
def GridSystem.getWindConfig (g : GridSystem) (x y : ℤ) : Option WindConfig :=
  if g.isValid x y then mapLookup g.windConfigs (x, y) else none

/-- The contribution a single wind source adds to the field at `(x, y)`:
the `k = 1 .. force` projection loop of `recalculateWindField`, with linear
falloff `max 0 (force - k + 1)` and no contribution to out-of-range cells. -/
def windSourceContribution (g : GridSystem) (e : (ℤ × ℤ) × WindConfig)
    (x y : ℤ) : ℚ × ℚ :=
  (List.range e.2.force.toNat).foldl
    (fun acc i =>
      let k : ℤ := (i : ℤ) + 1
      let tx := e.1.1 + e.2.dx * k
      let ty := e.1.2 + e.2.dy * k
      if g.isValid tx ty ∧ tx = x ∧ ty = y then
        -- `Math.max(0, force - k + 1)` written out as a comparison
        let magnitude : ℤ := if e.2.force - k + 1 ≤ 0 then 0 else e.2.force - k + 1
        (acc.1 + (e.2.dx * magnitude : ℤ), acc.2 + (e.2.dy * magnitude : ℤ))
      else acc)
    (0, 0)

/-- `getWindVector` of `GridSystem.ts`: `(0,0)` out of bounds, otherwise the
wind-field entry, i.e. the sum over all sources of `recalculateWindField`'s
accumulation at that cell. -/
def GridSystem.getWindVector (g : GridSystem) (x y : ℤ) : ℚ × ℚ :=
  if g.isValid x y then
    g.windConfigs.foldl
      (fun acc e =>
        let c := windSourceContribution g e x y
        (acc.1 + c.1, acc.2 + c.2))
      (0, 0)
  else (0, 0)

/-!
### The common action table

`MdpSolver.ts` and `AStarSolver.ts` declare identical `actions` arrays
(`0: Up (0,1, π/2), 1: Right (1,0, 0), 2: Down (0,-1, -π/2), 3: Left
(-1,0, π)`); we define the table once.  Angles are in units of π.
-/

/-- The `(dx, dy)` of action `a` (indices ≥ 4 never occur). -/
def actionDir : ℕ → ℤ × ℤ
  | 0 => (0, 1)
  | 1 => (1, 0)
  | 2 => (0, -1)
  | _ => (-1, 0)

/-- The policy angle of action `a`, in units of π. -/
def actionAngle : ℕ → ℚ
  | 0 => 1/2
  | 1 => 0
  | 2 => -1/2
  | _ => 1

/-!
### MdpSolver

State is the pair of flat arrays `(values, policy)`, modelled as functions
`ℤ → ℚ`.  Hyperparameters of `MdpSolver.ts`: `gamma = 0.95`, `noise = 0.2`,
`rewardGoal = 10.0`, `rewardStep = -0.1`, `rewardWall = -1.0`.
-/

def mdpGamma : ℚ := 95/100

def mdpNoise : ℚ := 2/10

def rewardGoal : ℚ := 10

def rewardStep : ℚ := -1/10

def rewardWall : ℚ := -1

/-- `getTransitionValue` of `MdpSolver.ts`: follow action `a` from `(x, y)`;
an off-grid or `Wall` destination keeps the agent in place and adds the wall
penalty; the result is `reward + gamma * values[destination]`. -/
def MdpSolver.getTransitionValue (g : GridSystem) (v : ℤ → ℚ) (x y : ℤ)
    (a : ℕ) : ℚ :=
  let nx := x + (actionDir a).1
  let ny := y + (actionDir a).2
  if ¬ g.isValid nx ny ∨ g.getCell nx ny = CellType.Wall then
    (rewardStep + rewardWall) + mdpGamma * v (g.getFlatIndex x y)
  else
    rewardStep + mdpGamma * v (g.getFlatIndex nx ny)

/-- `calculateQValue` of `MdpSolver.ts`: mixture of the intended direction
with weight `1 - noise` and the two indices `(a+3) % 4`, `(a+1) % 4` with
weight `noise / 2` each. -/
def MdpSolver.calculateQValue (g : GridSystem) (v : ℤ → ℚ) (x y : ℤ)
    (a : ℕ) : ℚ :=
  (1 - mdpNoise) * MdpSolver.getTransitionValue g v x y a
    + (mdpNoise / 2) * MdpSolver.getTransitionValue g v x y ((a + 3) % 4)
    + (mdpNoise / 2) * MdpSolver.getTransitionValue g v x y ((a + 1) % 4)

/-- The `bestValue / bestAngle` fold over the four actions in `iterate` of
`MdpSolver.ts`.  The source starts from `bestValue = -Infinity`, which the
finite Q-value of action 0 always beats, so the accumulator is an `Option`
that the first action always fills. -/
def MdpSolver.bestAction (g : GridSystem) (v : ℤ → ℚ) (x y : ℤ) : ℚ × ℚ :=
  let r := [0, 1, 2, 3].foldl
    (fun (acc : Option ℚ × ℚ) a =>
      let q := MdpSolver.calculateQValue g v x y a
      match acc.1 with
      | none => (some q, actionAngle a)
      | some b => if q > b then (some q, actionAngle a) else acc)
    (none, 0)
  (r.1.getD 0, r.2)

/-- `iterate` of `MdpSolver.ts`: one full Bellman sweep.  Returns the pair
`(nextValues, policy)`.  `nextValues` is a fresh array; `policy` is written
in place, cell by cell: `0` at `Goal` cells, untouched at `Wall` cells, the
argmax angle elsewhere.  The optional agent-position argument is ignored. -/
def MdpSolver.iterate (g : GridSystem) (_agentPosition : Option (ℚ × ℚ))
    (v p : ℤ → ℚ) : (ℤ → ℚ) × (ℤ → ℚ) :=
  (fun idx =>
     if 0 ≤ idx ∧ idx < (g.width : ℤ) * (g.height : ℤ) then
       let x := idx % (g.width : ℤ)
       let y := idx / (g.width : ℤ)
       if g.getCell x y = CellType.Goal then rewardGoal
       else if g.getCell x y = CellType.Wall then 0
       else (MdpSolver.bestAction g v x y).1
     else 0,
   fun idx =>
     if 0 ≤ idx ∧ idx < (g.width : ℤ) * (g.height : ℤ) then
       let x := idx % (g.width : ℤ)
       let y := idx / (g.width : ℤ)
       if g.getCell x y = CellType.Goal then 0
       else if g.getCell x y = CellType.Wall then p idx
       else (MdpSolver.bestAction g v x y).2
     else p idx)

/-- `reset` of `MdpSolver.ts` followed by `n` calls to `iterate`. -/
def mdpRun (g : GridSystem) : ℕ → (ℤ → ℚ) × (ℤ → ℚ)
  | 0 => (fun _ => 0, fun _ => 0)
  | n + 1 =>
    let s := mdpRun g n
    MdpSolver.iterate g none s.1 s.2

/-!
### AStarSolver
-/

/-- Solver state: the `policy` and `values` flat arrays. -/
structure AState where
  policy : ℤ → ℚ
  values : ℤ → ℚ

/-- An entry of the A* `openSet`. -/
structure ANode where
  x : ℤ
  y : ℤ
  g : ℚ
  f : ℚ

/-- The Manhattan heuristic `h` of `AStarSolver.ts`. -/
def manhQ (x1 y1 x2 y2 : ℤ) : ℚ :=
  ((|x1 - x2| + |y1 - y2| : ℤ) : ℚ)

/-- Stable insertion into a list ascending in `f`; an element with an equal
`f` keeps its earlier position (ECMAScript `Array.prototype.sort` is
stable). -/
def insertByF (n : ANode) : List ANode → List ANode
  | [] => [n]
  | m :: r => if n.f ≤ m.f then n :: m :: r else m :: insertByF n r

/-- The `openSet.sort((a, b) => a.f - b.f)` of `AStarSolver.ts` as a stable
insertion sort. -/
def sortByF : List ANode → List ANode
  | [] => []
  | n :: r => insertByF n (sortByF r)

/-- `openSet.find(n => n.x === nx && n.y === ny)`. -/
def findNode (l : List ANode) (nx ny : ℤ) : Option ANode :=
  l.find? (fun n => decide (n.x = nx) && decide (n.y = ny))

/-- In-place mutation of the first `openSet` node at `(nx, ny)`:
`existingNode.g = tentativeG; existingNode.f = f`. -/
def updateNode (nx ny : ℤ) (ng nf : ℚ) : List ANode → List ANode
  | [] => []
  | m :: r =>
    if m.x = nx ∧ m.y = ny then ⟨nx, ny, ng, nf⟩ :: r
    else m :: updateNode nx ny ng nf r

/-- `cameFrom.get`: lookup by flat index. -/
def cameLookup (cf : List (ℤ × ℤ × ℚ)) (k : ℤ) : Option (ℤ × ℚ) :=
  mapLookup cf k

/-- `cameFrom.set`: an existing key keeps its position and is overwritten, a
new key is appended. -/
def cameSet (cf : List (ℤ × ℤ × ℚ)) (k : ℤ) (v : ℤ × ℚ) : List (ℤ × ℤ × ℚ) :=
  mapUpsert cf k v

/-- The row-major goal scan at the top of `iterate` of `AStarSolver.ts`. -/
def goalsOf (g : GridSystem) : List (ℤ × ℤ) :=
  (List.range g.height).flatMap (fun (y : ℕ) =>
    (List.range g.width).filterMap (fun (x : ℕ) =>
      if g.getCell (x : ℤ) (y : ℤ) = CellType.Goal then some ((x : ℤ), (y : ℤ))
      else none))

/-- The body of the `for (let action of this.actions)` neighbour loop of
`AStarSolver.ts`, acting on the state `(openSet-after-shift, cameFrom,
values)`.  `stepCost` is uniformly 1 (wind is invisible to the planner). -/
def astarRelax (g : GridSystem) (goal : ℤ × ℤ) (cur : ANode) (closed : List ℤ)
    (st : List ANode × List (ℤ × ℤ × ℚ) × (ℤ → ℚ)) (a : ℕ) :
    List ANode × List (ℤ × ℤ × ℚ) × (ℤ → ℚ) :=
  let nx := cur.x + (actionDir a).1
  let ny := cur.y + (actionDir a).2
  if ¬ g.isValid nx ny then st
  else if g.getCell nx ny = CellType.Wall then st
  else
    let nIdx := g.getFlatIndex nx ny
    if nIdx ∈ closed then st
    else
      let stepCost : ℚ := 1
      let tg := cur.g + stepCost
      let cIdx := g.getFlatIndex cur.x cur.y
      match findNode st.1 nx ny with
      | none =>
        (st.1 ++ [⟨nx, ny, tg, tg + manhQ nx ny goal.1 goal.2⟩],
         cameSet st.2.1 nIdx (cIdx, actionAngle a),
         fun i => if i = nIdx then 2/10 else st.2.2 i)
      | some ex =>
        if tg < ex.g then
          (updateNode nx ny tg (tg + manhQ nx ny goal.1 goal.2) st.1,
           cameSet st.2.1 nIdx (cIdx, actionAngle a),
           fun i => if i = nIdx then 2/10 else st.2.2 i)
        else st

/-- The path-reconstruction `while (cameFrom.has(curr))` walk of
`reconstructPath`.  The walk of the source terminates because the chain is
acyclic on every input produced by the search; the fuel argument makes that
termination explicit and is chosen large enough that it is never exhausted
on such chains. -/
def reconstructWalk (cf : List (ℤ × ℤ × ℚ)) :
    ℕ → ℤ → (ℤ → ℚ) → (ℤ → ℚ) → (ℤ → ℚ) × (ℤ → ℚ)
  | 0, _, pol, val => (pol, val)
  | fuel + 1, curr, pol, val =>
    match cameLookup cf curr with
    | none => (pol, val)
    | some pr =>
      reconstructWalk cf fuel pr.1
        (fun i => if i = pr.1 then pr.2 else pol i)
        (fun i => if i = pr.1 then 1 else val i)

/-- `reconstructPath` of `AStarSolver.ts`: walk the parent chain writing
`policy[parent] = angle`, `values[parent] = 1.0`, then mark the goal cell
itself with `values[currentIdx] = 1.0`. -/
def AStarSolver.reconstructPath (cf : List (ℤ × ℤ × ℚ)) (currentIdx : ℤ)
    (pol val : ℤ → ℚ) : (ℤ → ℚ) × (ℤ → ℚ) :=
  let r := reconstructWalk cf (cf.length + 1) currentIdx pol val
  (r.1, fun i => if i = currentIdx then 1 else r.2 i)

/-- The `while (openSet.length > 0)` loop of `AStarSolver.ts`.  Each
iteration sorts by `f`, shifts the head, exits through `reconstructPath`
when the head is the goal, and otherwise closes the head and relaxes its
four neighbours.  The source loop terminates because each iteration closes
a distinct in-bounds cell; the fuel `width * height + 1` supplied by
`iterate` therefore never runs out. -/
def astarLoop (g : GridSystem) (goal : ℤ × ℤ) :
    ℕ → List ANode → List ℤ → List (ℤ × ℤ × ℚ) → (ℤ → ℚ) → (ℤ → ℚ) →
    (ℤ → ℚ) × (ℤ → ℚ)
  | 0, _, _, _, pol, val => (pol, val)
  | fuel + 1, openList, closed, cf, pol, val =>
    match sortByF openList with
    | [] => (pol, val)
    | cur :: rest =>
      let cIdx := g.getFlatIndex cur.x cur.y
      if cur.x = goal.1 ∧ cur.y = goal.2 then
        AStarSolver.reconstructPath cf cIdx pol val
      else
        let closed' := cIdx :: closed
        let st := [0, 1, 2, 3].foldl (astarRelax g goal cur closed')
          (rest, cf, val)
        astarLoop g goal fuel st.1 closed' st.2.1 pol st.2.2

/-- `iterate` of `AStarSolver.ts`.  With no agent position it returns at
once; otherwise it zeroes `policy` and `values`, returns if the start cell
is out of bounds or no goal exists, and runs a full A* search towards the
first goal found by the row-major scan.  The agent position components are
`position.x` and `position.z` of the source. -/
def AStarSolver.iterate (g : GridSystem) (agentPosition : Option (ℚ × ℚ))
    (s : AState) : AState :=
  match agentPosition with
  | none => s
  | some p =>
    let pol0 : ℤ → ℚ := fun _ => 0
    let val0 : ℤ → ℚ := fun _ => 0
    let startX : ℤ := ⌊p.1⌋
    let startY : ℤ := ⌊p.2⌋
    if ¬ g.isValid startX startY then ⟨pol0, val0⟩
    else
      match goalsOf g with
      | [] => ⟨pol0, val0⟩
      | goal :: _ =>
        let startNode : ANode := ⟨startX, startY, 0, manhQ startX startY goal.1 goal.2⟩
        let r := astarLoop g goal (g.width * g.height + 1) [startNode] [] []
          pol0 val0
        ⟨r.1, r.2⟩

/-!
### Wind retyping (for the hazard-blindness claim)

`retypeWind g sel` retypes the in-bounds `Wind` cells selected by `sel` to
`Empty` and removes their wind configurations.
-/

def retypeWind (g : GridSystem) (sel : ℤ → ℤ → Bool) : GridSystem :=
  { g with
    cells := fun x y =>
      if sel x y = true ∧ g.isValid x y ∧ g.cells x y = CellType.Wind then
        CellType.Empty
      else g.cells x y,
    windConfigs := g.windConfigs.filter (fun e =>
      !(sel e.1.1 e.1.2 && decide (g.isValid e.1.1 e.1.2)
          && decide (g.cells e.1.1 e.1.2 = CellType.Wind))) }

/-!
### Editing operations (for the wind/type-coupling claim)

The editing surface exposed to the UI.  `paintWind` is the composite edit the
application performs when painting wind (`setCell(x, y, Wind)` immediately
followed by `setWindConfig(x, y, ...)`, as in `paintTile` of `main.ts` and in
`deserialize`).
-/

inductive EditOp where
  | paintCell (x y : ℤ) (t : CellType)
  | paintWind (x y dx dy force : ℤ)
  | resetAll
deriving DecidableEq

def applyEdit (g : GridSystem) : EditOp → GridSystem
  | EditOp.paintCell x y t => g.setCell x y t
  | EditOp.paintWind x y dx dy force =>
    (g.setCell x y CellType.Wind).setWindConfig x y dx dy force
  | EditOp.resetAll => g.reset

def applyEdits (g : GridSystem) (ops : List EditOp) : GridSystem :=
  ops.foldl applyEdit g

/-- A direct `paintCell` must not paint `Wind` (wind is painted through the
composite `paintWind`). -/
def goodEdit : EditOp → Bool
  | EditOp.paintCell _ _ t => decide (t ≠ CellType.Wind)
  | _ => true

/-- The wind/type coupling invariant of the spec: an in-bounds cell has a
wind configuration iff its type is `Wind`. -/
def WindInv (g : GridSystem) : Prop :=
  ∀ x y : ℤ, g.isValid x y →
    ((g.getWindConfig x y).isSome ↔ g.getCell x y = CellType.Wind)

/-!
### Agent

Modelled from the spec: the final `Agent` class (the revision with the
`stopped` flag, the `stopReason` enum and the physical wind-field
displacement described in §4.5 of the spec) is not present under the
repository sources; only an earlier revision (without wind or stop state)
and the call sites that consume `stopped` / `stopReason` are.  The
definitions below follow the spec's §3 "Agent state" and §4.5 word for
word.
-/

/-- Modelled from the spec: the `stopReason` enum `{None, Wall, Goal}`. -/
inductive StopReason where
  | none
  | wall
  | goal
deriving DecidableEq, Repr

/-- Modelled from the spec: continuous position (the source keeps it in the
`x` and `z` components of a `Vector3`), the `stopped` flag and the stop
reason. -/
structure AgentState where
  x : ℚ
  z : ℚ
  stopped : Bool
  stopReason : StopReason

/-- The fixed agent speed (8.0 units per second in the earlier `Agent`
revision, kept by the spec as "a fixed speed"). -/
def agentSpeed : ℚ := 8

/-- Modelled from the spec: "compute a desired velocity unit vector from the
policy angle".  Only the four cardinal angles (in units of π) ever occur as
policy values; on them this is exactly `(cos θ, sin θ)`. -/
def dirOfAngle (a : ℚ) : ℚ × ℚ :=
  if a = 1/2 then (0, 1)
  else if a = 1 then (-1, 0)
  else if a = -1/2 then (0, -1)
  else (1, 0)

/-- Modelled from the spec (§4.5): one simulation tick of the final `Agent`.
`jx`/`jz` are the sampled jitter noise values for this tick (turbulent on
`Wind` cells, ambient elsewhere — the sampling itself is external here).
On a `Goal` cell the agent stops with reason `Goal` and does not move.
Otherwise the policy angle at the current cell gives a direction, jitter is
added, the result is scaled by speed and delta-time to a candidate
position; the physical wind-field vector read live from the grid at the
candidate cell is applied as an additional displacement; if the resulting
cell is a `Wall` or off-grid the move is rejected and the agent stops with
reason `Wall`, otherwise the position is committed. -/
def Agent.update (g : GridSystem) (policy : ℤ → ℚ) (dt jx jz : ℚ)
    (s : AgentState) : AgentState :=
  let gx : ℤ := ⌊s.x⌋
  let gz : ℤ := ⌊s.z⌋
  if g.getCell gx gz = CellType.Goal then
    { s with stopped := true, stopReason := StopReason.goal }
  else
    let ang := policy (g.getFlatIndex gx gz)
    let d := dirOfAngle ang
    let cx := s.x + (d.1 + jx) * agentSpeed * dt
    let cz := s.z + (d.2 + jz) * agentSpeed * dt
    let w := g.getWindVector ⌊cx⌋ ⌊cz⌋
    let tx := cx + w.1
    let tz := cz + w.2
    if g.isValid ⌊tx⌋ ⌊tz⌋ ∧ g.getCell ⌊tx⌋ ⌊tz⌋ ≠ CellType.Wall then
      { s with x := tx, z := tz }
    else
      { s with stopped := true, stopReason := StopReason.wall }

/-!
### Paths on the grid

`stepOk g c c'` is one 4-connected move into an in-bounds non-`Wall` cell —
exactly the moves the A* neighbour loop explores.  A path is a nonempty
list of cells whose head is in bounds and whose consecutive pairs are
`stepOk`.
-/

def stepOk (g : GridSystem) (c c' : ℤ × ℤ) : Prop :=
  (∃ a, a < 4 ∧ c' = (c.1 + (actionDir a).1, c.2 + (actionDir a).2)) ∧
    g.isValid c'.1 c'.2 ∧ g.getCell c'.1 c'.2 ≠ CellType.Wall

def IsPathList (g : GridSystem) (l : List (ℤ × ℤ)) : Prop :=
  l ≠ [] ∧ (∀ c ∈ l.head?, g.isValid c.1 c.2) ∧ List.Chain' (stepOk g) l

/-- A 4-connected path from `s` to `t` through in-bounds non-`Wall` cells. -/
def PathFromTo (g : GridSystem) (s t : ℤ × ℤ) (l : List (ℤ × ℤ)) : Prop :=
  IsPathList g l ∧ l.head? = some s ∧ l.getLast? = some t

/-- `t` is reachable from `s` by 4-connected non-`Wall` moves. -/
def ReachesP (g : GridSystem) (s t : ℤ × ℤ) : Prop :=
  ∃ l, PathFromTo g s t l

/-!
### Spec-side MDP transition model (for the transition-model claim)

These definitions follow the spec's §4.3 wording (and are compared against
the source-side `calculateQValue` / `getTransitionValue`): an action's
outcome distribution puts weight `1-ε` on the intended direction and `ε/2`
on each of the two directions perpendicular to it, never on the reverse;
an outcome whose destination is off-grid or a `Wall` keeps the agent at `s`
and adds the wall-bump penalty to the step reward; each outcome is valued
`reward + γ · value[destination]`.
-/

/-- The two perpendiculars of a direction, per the spec's wording. -/
def perpLeft (d : ℤ × ℤ) : ℤ × ℤ := (-d.2, d.1)

def perpRight (d : ℤ × ℤ) : ℤ × ℤ := (d.2, -d.1)

def reverseDir (d : ℤ × ℤ) : ℤ × ℤ := (-d.1, -d.2)

/-- Spec-side outcome value of moving one cell along `d` from `(x, y)`. -/
def specOutcome (g : GridSystem) (v : ℤ → ℚ) (x y : ℤ) (d : ℤ × ℤ) : ℚ :=
  let nx := x + d.1
  let ny := y + d.2
  if ¬ g.isValid nx ny ∨ g.getCell nx ny = CellType.Wall then
    (rewardStep + rewardWall) + mdpGamma * v (g.getFlatIndex x y)
  else
    rewardStep + mdpGamma * v (g.getFlatIndex nx ny)

/-- Spec-side Q-value: the `(1-ε, ε/2, ε/2)` mixture over the intended
direction and its two perpendiculars. -/
def specQMixture (g : GridSystem) (v : ℤ → ℚ) (x y : ℤ) (d : ℤ × ℤ) : ℚ :=
  (1 - mdpNoise) * specOutcome g v x y d
    + (mdpNoise / 2) * specOutcome g v x y (perpLeft d)
    + (mdpNoise / 2) * specOutcome g v x y (perpRight d)

/-!
### Distances and came-from chains (for the A* claims)
-/

/-- `t` is reachable from `s` by a path of `k` steps (`k + 1` cells). -/
def ReachesInN (g : GridSystem) (s t : ℤ × ℤ) (k : ℕ) : Prop :=
  ∃ l, PathFromTo g s t l ∧ l.length = k + 1

/-- `k` is the exact 4-connected distance from `s` to `t`. -/
def IsDist (g : GridSystem) (s t : ℤ × ℤ) (k : ℕ) : Prop :=
  ReachesInN g s t k ∧ ∀ j, ReachesInN g s t j → k ≤ j

/-- The `cameFrom` chain from `start` out to `c` realises a `k`-step valid
path with cell list `l`: each link is recorded in `cf` under the child's
flat index, storing the parent's flat index and the angle of the action
taken, and the chain stops at `start`, which has no entry. -/
inductive CameRealL (g : GridSystem) (cf : List (ℤ × ℤ × ℚ)) (start : ℤ × ℤ) :
    (ℤ × ℤ) → ℕ → List (ℤ × ℤ) → Prop where
  | refl (h0 : g.isValid start.1 start.2)
      (hnone : cameLookup cf (g.getFlatIndex start.1 start.2) = none) :
      CameRealL g cf start start 0 [start]
  | step {c c' : ℤ × ℤ} {k : ℕ} {l : List (ℤ × ℤ)} (a : ℕ)
      (hp : CameRealL g cf start c k l) (ha : a < 4)
      (hc : c' = (c.1 + (actionDir a).1, c.2 + (actionDir a).2))
      (hv : g.isValid c'.1 c'.2) (hw : g.getCell c'.1 c'.2 ≠ CellType.Wall)
      (hcf : cameLookup cf (g.getFlatIndex c'.1 c'.2) =
        some (g.getFlatIndex c.1 c.2, actionAngle a)) :
      CameRealL g cf start c' (k + 1) (l ++ [c'])

/-!
### Concrete instances used to evaluate the theorems
-/

/-- A 10×10 grid whose only wind source sits at `(5,5)`, blowing East with
force 3. -/
def windGrid : GridSystem :=
  ((mkGrid 10 10).setCell 5 5 CellType.Wind).setWindConfig 5 5 1 0 3

/-- A 2×2 grid on which `setWindConfig` was called for the `Empty` cell
`(0,0)`. -/
def badCoupleGrid : GridSystem := (mkGrid 2 2).setWindConfig 0 0 1 0 2

/-- A well-formed editing sequence: paint wind at `(0,0)`, then a wall. -/
def coupleOps : List EditOp :=
  [EditOp.paintWind 0 0 1 0 2, EditOp.paintCell 1 1 CellType.Wall]

/-- A 2×2 grid with a goal at `(0,0)` and a wall at `(1,0)`. -/
def goalWallGrid : GridSystem :=
  ((mkGrid 2 2).setCell 0 0 CellType.Goal).setCell 1 0 CellType.Wall

/-- An empty 2×2 grid (no goal anywhere). -/
def emptyGrid : GridSystem := mkGrid 2 2

/-- A planner state with non-zero entries everywhere. -/
def onesState : AState := ⟨fun _ => 1, fun _ => 1⟩

/-- A 4×1 corridor with a wind source at `(2,0)` blowing West with force 2. -/
def corridorGrid : GridSystem :=
  ((mkGrid 4 1).setCell 2 0 CellType.Wind).setWindConfig 2 0 (-1) 0 2

/-- A 2×2 grid with a goal at `(1,0)`. -/
def smallGoalGrid : GridSystem := (mkGrid 2 2).setCell 1 0 CellType.Goal

/-- The A* loop invariant.  `openPaths`: every open node's `g` is the exact
length of a `cameFrom`-realised path whose earlier cells are all closed.
`fDef`: `f = g + h`.  `startCover`: the start is open with `g = 0` or
closed.  `closedFrontier`: every closed cell is at its exact distance `k`
from the start and each of its in-bounds non-`Wall` neighbours is closed or
open with `g ≤ k + 1`.  The remaining fields are bookkeeping: the start has
no `cameFrom` entry, open nodes sit on distinct valid unclosed cells,
closed indices are distinct, the goal is unclosed, the start is closed
except in the initial singleton state, and `values` holds only `0` or the
`0.2` sentinel. -/
structure AStarInv (g : GridSystem) (start goal : ℤ × ℤ)
    (openList : List ANode) (closed : List ℤ) (cf : List (ℤ × ℤ × ℚ))
    (val : ℤ → ℚ) : Prop where
  openPaths : ∀ n ∈ openList, ∃ (k : ℕ) (l : List (ℤ × ℤ)),
    n.g = (k : ℚ) ∧ CameRealL g cf start (n.x, n.y) k l ∧
    (l.map (fun c => g.getFlatIndex c.1 c.2)).Nodup ∧
    ∀ c ∈ l.dropLast, g.getFlatIndex c.1 c.2 ∈ closed
  fDef : ∀ n ∈ openList, n.f = n.g + manhQ n.x n.y goal.1 goal.2
  startCover : (∃ n ∈ openList, n.x = start.1 ∧ n.y = start.2 ∧ n.g = 0) ∨
    g.getFlatIndex start.1 start.2 ∈ closed
  closedFrontier : ∀ cIdx ∈ closed, ∃ (c : ℤ × ℤ) (k : ℕ),
    g.getFlatIndex c.1 c.2 = cIdx ∧ g.isValid c.1 c.2 ∧ IsDist g start c k ∧
    ∀ a, a < 4 → ∀ c' : ℤ × ℤ,
      c' = (c.1 + (actionDir a).1, c.2 + (actionDir a).2) →
      g.isValid c'.1 c'.2 → g.getCell c'.1 c'.2 ≠ CellType.Wall →
      (g.getFlatIndex c'.1 c'.2 ∈ closed ∨
        ∃ n ∈ openList, n.x = c'.1 ∧ n.y = c'.2 ∧ n.g ≤ (k : ℚ) + 1)
  noStartCf : cameLookup cf (g.getFlatIndex start.1 start.2) = none
  openValid : ∀ n ∈ openList, g.isValid n.x n.y
  openNodup : (openList.map (fun n => (n.x, n.y))).Nodup
  openDisjoint : ∀ n ∈ openList, g.getFlatIndex n.x n.y ∉ closed
  closedNodup : closed.Nodup
  goalOpen : g.getFlatIndex goal.1 goal.2 ∉ closed
  startProtected : g.getFlatIndex start.1 start.2 ∈ closed ∨
    (cf = [] ∧ ∀ n ∈ openList, n.x = start.1 ∧ n.y = start.2)
  valRange : ∀ idx, val idx = 0 ∨ val idx = 2/10

/-- The state of the A* loop body after the current node `cur` has been
shifted and its cell added to the closed list `closedE`, while its four
neighbour relaxations are still in flight: the fields of `AStarInv` that
concern only the open list, the `cameFrom` map and the `values` array
(relative to `closedE`), together with the realised chain of `cur`
itself, whose cells all lie on `closedE`. -/
structure RelaxPre (g : GridSystem) (start goal : ℤ × ℤ) (cur : ANode)
    (kc : ℕ) (closedE : List ℤ) (openL : List ANode)
    (cf : List (ℤ × ℤ × ℚ)) (val : ℤ → ℚ) : Prop where
  openPaths : ∀ n ∈ openL, ∃ (k : ℕ) (l : List (ℤ × ℤ)),
    n.g = (k : ℚ) ∧ CameRealL g cf start (n.x, n.y) k l ∧
    (l.map (fun c => g.getFlatIndex c.1 c.2)).Nodup ∧
    ∀ c ∈ l.dropLast, g.getFlatIndex c.1 c.2 ∈ closedE
  fDef : ∀ n ∈ openL, n.f = n.g + manhQ n.x n.y goal.1 goal.2
  noStartCf : cameLookup cf (g.getFlatIndex start.1 start.2) = none
  openValid : ∀ n ∈ openL, g.isValid n.x n.y
  openNodup : (openL.map (fun n => (n.x, n.y))).Nodup
  openDisjoint : ∀ n ∈ openL, g.getFlatIndex n.x n.y ∉ closedE
  valRange : ∀ idx, val idx = 0 ∨ val idx = 2/10
  startClosed : g.getFlatIndex start.1 start.2 ∈ closedE
  curG : cur.g = (kc : ℚ)
  curValid : g.isValid cur.x cur.y
  curChain : ∃ lc, CameRealL g cf start (cur.x, cur.y) kc lc ∧
    (lc.map (fun c => g.getFlatIndex c.1 c.2)).Nodup ∧
    ∀ c ∈ lc, g.getFlatIndex c.1 c.2 ∈ closedE

/-- An agent standing at the centre of cell `(0,0)`, running. -/
def agentStart : AgentState := ⟨1/2, 1/2, false, StopReason.none⟩

/-!
## Theorems

### Association-list lemmas
-/

theorem mapLookup_nil {κ ν : Type} [DecidableEq κ] (k : κ) :
    mapLookup ([] : List (κ × ν)) k = none := rfl

theorem mapLookup_cons {κ ν : Type} [DecidableEq κ] (e : κ × ν)
    (l : List (κ × ν)) (k : κ) :
    mapLookup (e :: l) k = if e.1 = k then some e.2 else mapLookup l k := by
  by_cases he : e.1 = k
  · simp [mapLookup, List.find?_cons_of_pos, he]
  · simp [mapLookup, List.find?_cons_of_neg, he]

theorem mapLookup_erase_self {κ ν : Type} [DecidableEq κ] (l : List (κ × ν))
    (k : κ) : mapLookup (mapErase l k) k = none := by
  induction l with
  | nil => rfl
  | cons e r ih =>
    by_cases he : e.1 = k
    · simpa [mapErase, he] using ih
    · simpa [mapErase, List.filter_cons, he, mapLookup_cons] using ih

theorem mapErase_cons {κ ν : Type} [DecidableEq κ] (e : κ × ν)
    (r : List (κ × ν)) (k : κ) :
    mapErase (e :: r) k =
      if e.1 = k then mapErase r k else e :: mapErase r k := by
  by_cases he : e.1 = k <;> simp [mapErase, List.filter_cons, he]

theorem mapLookup_erase_ne {κ ν : Type} [DecidableEq κ] (l : List (κ × ν))
    (k k' : κ) (h : k' ≠ k) :
    mapLookup (mapErase l k) k' = mapLookup l k' := by
  induction l with
  | nil => rfl
  | cons e r ih =>
    rw [mapErase_cons]
    by_cases he : e.1 = k
    · have h2 : ¬ (e.1 = k') := by rw [he]; exact fun hh => h hh.symm
      rw [if_pos he, mapLookup_cons, if_neg h2]
      exact ih
    · rw [if_neg he, mapLookup_cons, mapLookup_cons]
      by_cases he' : e.1 = k'
      · rw [if_pos he', if_pos he']
      · rw [if_neg he', if_neg he']
        exact ih

theorem mapLookup_upsert_self {κ ν : Type} [DecidableEq κ] (l : List (κ × ν))
    (k : κ) (v : ν) : mapLookup (mapUpsert l k v) k = some v := by
  unfold mapUpsert
  by_cases hf : (l.find? (fun e => decide (e.1 = k))).isSome
  · simp only [hf, if_true]
    induction l with
    | nil => simp at hf
    | cons e r ih =>
      by_cases he : e.1 = k
      · simp [mapLookup_cons, he]
      · have hf' : (r.find? (fun e => decide (e.1 = k))).isSome := by
          simpa [List.find?_cons_of_neg, he] using hf
        simpa [mapLookup_cons, he] using ih hf'
  · simp only [hf, if_false]
    induction l with
    | nil => simp [mapLookup_cons]
    | cons e r ih =>
      by_cases he : e.1 = k
      · exact absurd (by simp [List.find?_cons_of_pos, he]) hf
      · have hf' : ¬ (r.find? (fun e => decide (e.1 = k))).isSome := by
          intro hx
          exact hf (by simpa [List.find?_cons_of_neg, he] using hx)
        simpa [mapLookup_cons, he] using ih hf'

theorem mapLookup_upsert_ne {κ ν : Type} [DecidableEq κ] (l : List (κ × ν))
    (k k' : κ) (v : ν) (h : k' ≠ k) :
    mapLookup (mapUpsert l k v) k' = mapLookup l k' := by
  have h1 : ¬ (k = k') := fun hh => h hh.symm
  unfold mapUpsert
  by_cases hf : (l.find? (fun e => decide (e.1 = k))).isSome
  · simp only [hf, if_true]
    clear hf
    induction l with
    | nil => rfl
    | cons e r ih =>
      by_cases he : e.1 = k
      · simp only [List.map_cons, mapLookup_cons] at *
        simpa [he, h1] using ih
      · by_cases he' : e.1 = k'
        · simp only [List.map_cons, mapLookup_cons] at *
          simp [he, he', h]
        · simp only [List.map_cons, mapLookup_cons] at *
          simpa [he, he'] using ih
  · simp only [hf, if_false]
    induction l with
    | nil => simp [mapLookup_cons, mapLookup_nil, h1]
    | cons e r ih =>
      by_cases he' : e.1 = k'
      · simp [mapLookup_cons, he']
      · have hf' : ¬ (r.find? (fun e => decide (e.1 = k))).isSome := by
          intro hx
          by_cases he : e.1 = k
          · exact hf (by simp [List.find?_cons_of_pos, he])
          · exact hf (by simpa [List.find?_cons_of_neg, he] using hx)
        simpa [mapLookup_cons, he'] using ih hf'

/-!
### C8 — bounds invariant
-/

/-- C8: for every `(x, y)` outside `[0, width) × [0, height)`,
`GridSystem.getCell` returns `Wall` and `GridSystem.getWindVector` returns
`(0, 0)`, regardless of the grid's contents. -/
theorem bounds_invariant (g : GridSystem) (x y : ℤ) (h : ¬ g.isValid x y) :
    g.getCell x y = CellType.Wall ∧ g.getWindVector x y = (0, 0) :=
  ⟨by simp [GridSystem.getCell, h], by simp [GridSystem.getWindVector, h]⟩

theorem bounds_invariant_witness :
    ¬ (mkGrid 3 3).isValid (-1) 0 ∧
      ((mkGrid 3 3).getCell (-1) 0 = CellType.Wall ∧
        (mkGrid 3 3).getWindVector (-1) 0 = (0, 0)) :=
  ⟨by decide, bounds_invariant (mkGrid 3 3) (-1) 0 (by decide)⟩

/-!
### C9 — wind falloff
-/

/-- C9: on a grid whose only wind source is at `(5,5)` with direction East
and force 3, the derived field is `(3,0)` at distance 1, `(2,0)` at
distance 2, `(1,0)` at distance 3, and `(0,0)` at distance 4 and at the
source cell itself. -/
theorem windGrid_configs : windGrid.windConfigs = [((5, 5), ⟨1, 0, 3⟩)] := by
  decide

theorem wind_falloff :
    windGrid.getWindVector 6 5 = (3, 0) ∧
      windGrid.getWindVector 7 5 = (2, 0) ∧
      windGrid.getWindVector 8 5 = (1, 0) ∧
      windGrid.getWindVector 9 5 = (0, 0) ∧
      windGrid.getWindVector 5 5 = (0, 0) := by
  refine ⟨?_, ?_, ?_, ?_, ?_⟩ <;>
  · unfold GridSystem.getWindVector
    rw [if_pos (by decide), windGrid_configs]
    simp only [List.foldl]
    rw [windSourceContribution]
    rw [show ((((5, 5) : ℤ × ℤ), (⟨1, 0, 3⟩ : WindConfig)) :
      (ℤ × ℤ) × WindConfig).2.force.toNat = 3 from rfl]
    rw [show List.range 3 = [0, 1, 2] from rfl]
    simp +decide only [List.foldl]
    norm_num

/-!
### C10 — A* with a missing agent position is a strict no-op
-/

/-- C10: calling `AStarSolver.iterate` with no agent position returns
immediately and leaves the policy and values arrays exactly unchanged. -/
theorem astar_missing_argument_noop (g : GridSystem) (s : AState) :
    AStarSolver.iterate g none s = s := rfl

/-!
### C4 — wind/type coupling
-/

/-- C4 counterexample: after the single operation
`setWindConfig 0 0 1 0 2` on a fresh 2×2 grid, cell `(0,0)` has a wind
configuration but its type is `Empty`, so the claimed iff fails. -/
theorem wind_coupling_counterexample :
    ¬ (((badCoupleGrid.getWindConfig 0 0).isSome = true) ↔
        badCoupleGrid.getCell 0 0 = CellType.Wind) := by
  decide

theorem setCell_invalid (g : GridSystem) (x y : ℤ) (t : CellType)
    (h : ¬ g.isValid x y) : g.setCell x y t = g := by
  unfold GridSystem.setCell
  rw [if_neg h]

theorem setWindConfig_invalid (g : GridSystem) (x y dx dy f : ℤ)
    (h : ¬ g.isValid x y) : g.setWindConfig x y dx dy f = g := by
  unfold GridSystem.setWindConfig
  rw [if_neg h]

theorem cells_setCell (g : GridSystem) (x y : ℤ) (t : CellType)
    (hv : g.isValid x y) (a b : ℤ) :
    (g.setCell x y t).cells a b = if a = x ∧ b = y then t else g.cells a b := by
  unfold GridSystem.setCell
  rw [if_pos hv]

theorem windConfigs_setCell (g : GridSystem) (x y : ℤ) (t : CellType)
    (hv : g.isValid x y) :
    (g.setCell x y t).windConfigs =
      if t ≠ CellType.Wind then mapErase g.windConfigs (x, y)
      else g.windConfigs := by
  unfold GridSystem.setCell
  rw [if_pos hv]

theorem cells_setWindConfig (g : GridSystem) (x y dx dy f : ℤ) :
    (g.setWindConfig x y dx dy f).cells = g.cells := by
  unfold GridSystem.setWindConfig
  split <;> rfl

theorem windConfigs_setWindConfig (g : GridSystem) (x y dx dy f : ℤ)
    (hv : g.isValid x y) :
    (g.setWindConfig x y dx dy f).windConfigs =
      mapUpsert g.windConfigs (x, y) ⟨dx, dy, f⟩ := by
  unfold GridSystem.setWindConfig
  rw [if_pos hv]

theorem getCell_eq_cells (g : GridSystem) (x y : ℤ) (hv : g.isValid x y) :
    g.getCell x y = g.cells x y := by
  unfold GridSystem.getCell
  rw [if_pos hv]

theorem getWindConfig_eq_lookup (g : GridSystem) (x y : ℤ)
    (hv : g.isValid x y) :
    g.getWindConfig x y = mapLookup g.windConfigs (x, y) := by
  unfold GridSystem.getWindConfig
  rw [if_pos hv]

theorem setCell_isValid (g : GridSystem) (x y : ℤ) (t : CellType) (a b : ℤ) :
    (g.setCell x y t).isValid a b ↔ g.isValid a b := by
  unfold GridSystem.setCell
  split <;> rfl

theorem setWindConfig_isValid (g : GridSystem) (x y dx dy f a b : ℤ) :
    (g.setWindConfig x y dx dy f).isValid a b ↔ g.isValid a b := by
  unfold GridSystem.setWindConfig
  split <;> rfl

theorem windInv_mkGrid (w h : ℕ) : WindInv (mkGrid w h) := by
  intro x y hv
  rw [getWindConfig_eq_lookup _ _ _ hv, getCell_eq_cells _ _ _ hv]
  show (mapLookup ([] : List ((ℤ × ℤ) × WindConfig)) (x, y)).isSome = true ↔
    CellType.Empty = CellType.Wind
  simp [mapLookup_nil]

theorem windInv_reset (g : GridSystem) : WindInv g.reset := by
  intro x y hv
  rw [getWindConfig_eq_lookup _ _ _ hv, getCell_eq_cells _ _ _ hv]
  show (mapLookup ([] : List ((ℤ × ℤ) × WindConfig)) (x, y)).isSome = true ↔
    CellType.Empty = CellType.Wind
  simp [mapLookup_nil]

theorem windInv_setCell (g : GridSystem) (x y : ℤ) (t : CellType)
    (hinv : WindInv g) (ht : t ≠ CellType.Wind) :
    WindInv (g.setCell x y t) := by
  intro a b hv'
  have hv : g.isValid a b := (setCell_isValid g x y t a b).mp hv'
  by_cases hxy : g.isValid x y
  · rw [getWindConfig_eq_lookup _ _ _ hv', getCell_eq_cells _ _ _ hv',
      cells_setCell g x y t hxy, windConfigs_setCell g x y t hxy, if_pos ht]
    by_cases hab : a = x ∧ b = y
    · rw [if_pos hab]
      have : ((a, b) : ℤ × ℤ) = (x, y) := by rw [hab.1, hab.2]
      rw [this, mapLookup_erase_self]
      simp [ht]
    · rw [if_neg hab]
      have hne : ((a, b) : ℤ × ℤ) ≠ (x, y) := by
        intro hh
        exact hab ⟨congrArg Prod.fst hh, congrArg Prod.snd hh⟩
      rw [mapLookup_erase_ne _ _ _ hne]
      have h2 := hinv a b hv
      rw [getWindConfig_eq_lookup _ _ _ hv, getCell_eq_cells _ _ _ hv] at h2
      exact h2
  · rw [setCell_invalid g x y t hxy]
    exact hinv a b hv

theorem windInv_paintWind (g : GridSystem) (x y dx dy f : ℤ)
    (hinv : WindInv g) :
    WindInv ((g.setCell x y CellType.Wind).setWindConfig x y dx dy f) := by
  intro a b hv'
  set g1 := g.setCell x y CellType.Wind with hg1
  have hv1 : g1.isValid a b := (setWindConfig_isValid g1 x y dx dy f a b).mp hv'
  have hv : g.isValid a b := (setCell_isValid g x y CellType.Wind a b).mp hv1
  by_cases hxy : g.isValid x y
  · have hxy1 : g1.isValid x y := (setCell_isValid g x y CellType.Wind x y).mpr hxy
    rw [getWindConfig_eq_lookup _ _ _ hv', getCell_eq_cells _ _ _ hv']
    rw [show (g1.setWindConfig x y dx dy f).cells = g1.cells from
      cells_setWindConfig g1 x y dx dy f]
    rw [windConfigs_setWindConfig g1 x y dx dy f hxy1]
    rw [show g1.cells a b = if a = x ∧ b = y then CellType.Wind else g.cells a b
      from cells_setCell g x y CellType.Wind hxy a b]
    have hcfg1 : g1.windConfigs = g.windConfigs := by
      rw [hg1, windConfigs_setCell g x y CellType.Wind hxy]
      simp
    rw [hcfg1]
    by_cases hab : a = x ∧ b = y
    · rw [if_pos hab]
      have : ((a, b) : ℤ × ℤ) = (x, y) := by rw [hab.1, hab.2]
      rw [this, mapLookup_upsert_self]
      simp
    · rw [if_neg hab]
      have hne : ((a, b) : ℤ × ℤ) ≠ (x, y) := by
        intro hh
        exact hab ⟨congrArg Prod.fst hh, congrArg Prod.snd hh⟩
      rw [mapLookup_upsert_ne _ _ _ _ hne]
      have h2 := hinv a b hv
      rw [getWindConfig_eq_lookup _ _ _ hv, getCell_eq_cells _ _ _ hv] at h2
      exact h2
  · rw [hg1, setCell_invalid g x y CellType.Wind hxy,
      setWindConfig_invalid g x y dx dy f hxy]
    exact hinv a b hv

theorem windInv_applyEdit (g : GridSystem) (op : EditOp) (hinv : WindInv g)
    (hgood : goodEdit op = true) : WindInv (applyEdit g op) := by
  cases op with
  | paintCell x y t =>
    have ht : t ≠ CellType.Wind := by simpa [goodEdit] using hgood
    exact windInv_setCell g x y t hinv ht
  | paintWind x y dx dy f => exact windInv_paintWind g x y dx dy f hinv
  | resetAll => exact windInv_reset g

theorem windInv_applyEdits (ops : List EditOp) :
    ∀ g : GridSystem, WindInv g → (∀ op ∈ ops, goodEdit op = true) →
      WindInv (applyEdits g ops) := by
  induction ops with
  | nil => intro g hg _; exact hg
  | cons op rest ih =>
    intro g hg hgood
    exact ih (applyEdit g op)
      (windInv_applyEdit g op hg (hgood op (List.mem_cons_self op rest)))
      (fun o ho => hgood o (List.mem_cons_of_mem op ho))

/-- C4 (amended): the wind/type coupling invariant holds after any sequence
of editing operations from a fresh grid in which wind is painted through the
composite edit (`setCell` to `Wind` immediately followed by `setWindConfig`,
as the application does) and `setCell` is otherwise never handed `Wind`. -/
theorem wind_coupling_amended (w h : ℕ) (ops : List EditOp)
    (hgood : ∀ op ∈ ops, goodEdit op = true) :
    WindInv (applyEdits (mkGrid w h) ops) :=
  windInv_applyEdits ops (mkGrid w h) (windInv_mkGrid w h) hgood

theorem wind_coupling_amended_witness :
    (∀ op ∈ coupleOps, goodEdit op = true) ∧
      WindInv (applyEdits (mkGrid 3 3) coupleOps) :=
  ⟨by decide, wind_coupling_amended 3 3 coupleOps (by decide)⟩

/-!
### Flat-index decoding
-/

theorem flat_decode (g : GridSystem) (x y : ℤ) (hv : g.isValid x y) :
    0 ≤ g.getFlatIndex x y ∧
      g.getFlatIndex x y < (g.width : ℤ) * (g.height : ℤ) ∧
      g.getFlatIndex x y % (g.width : ℤ) = x ∧
      g.getFlatIndex x y / (g.width : ℤ) = y := by
  obtain ⟨hx0, hxw, hy0, hyh⟩ := hv
  unfold GridSystem.getFlatIndex
  have hw0 : (0 : ℤ) < (g.width : ℤ) := lt_of_le_of_lt hx0 hxw
  refine ⟨?_, ?_, ?_, ?_⟩
  · have : 0 ≤ y * (g.width : ℤ) := mul_nonneg hy0 (le_of_lt hw0)
    omega
  · have hy1 : y + 1 ≤ (g.height : ℤ) := by omega
    have : (y + 1) * (g.width : ℤ) ≤ (g.height : ℤ) * (g.width : ℤ) :=
      mul_le_mul_of_nonneg_right hy1 (le_of_lt hw0)
    have := mul_comm (g.height : ℤ) (g.width : ℤ) ▸ this
    nlinarith
  · rw [add_comm, mul_comm]
    rw [Int.add_mul_emod_self_left]
    exact Int.emod_eq_of_lt hx0 hxw
  · rw [add_comm, mul_comm]
    rw [Int.add_mul_ediv_left x y (by omega : (g.width : ℤ) ≠ 0)]
    rw [Int.ediv_eq_zero_of_lt hx0 hxw]
    omega

theorem mdpIterate_at (g : GridSystem) (pos : Option (ℚ × ℚ)) (v p : ℤ → ℚ)
    (x y : ℤ) (hv : g.isValid x y) :
    (MdpSolver.iterate g pos v p).1 (g.getFlatIndex x y) =
      (if g.getCell x y = CellType.Goal then rewardGoal
       else if g.getCell x y = CellType.Wall then 0
       else (MdpSolver.bestAction g v x y).1) ∧
    (MdpSolver.iterate g pos v p).2 (g.getFlatIndex x y) =
      (if g.getCell x y = CellType.Goal then 0
       else if g.getCell x y = CellType.Wall then p (g.getFlatIndex x y)
       else (MdpSolver.bestAction g v x y).2) := by
  obtain ⟨h0, hlt, hmod, hdiv⟩ := flat_decode g x y hv
  constructor
  · show (if 0 ≤ g.getFlatIndex x y ∧
        g.getFlatIndex x y < (g.width : ℤ) * (g.height : ℤ) then _ else _) = _
    rw [if_pos ⟨h0, hlt⟩, hmod, hdiv]
  · show (if 0 ≤ g.getFlatIndex x y ∧
        g.getFlatIndex x y < (g.width : ℤ) * (g.height : ℤ) then _ else _) = _
    rw [if_pos ⟨h0, hlt⟩, hmod, hdiv]

/-!
### C6 — MDP terminal invariant
-/

/-- C6: starting from a reset `MdpSolver`, after any number of `iterate`
sweeps over any fixed grid, the value at every `Goal` cell equals
`rewardGoal` exactly (once at least one sweep has run), and the value and
policy entries at every `Wall` cell remain 0. -/
theorem mdp_terminal_invariant (g : GridSystem) (n : ℕ) (x y : ℤ)
    (hv : g.isValid x y) :
    (g.getCell x y = CellType.Goal → 1 ≤ n →
      (mdpRun g n).1 (g.getFlatIndex x y) = rewardGoal) ∧
    (g.getCell x y = CellType.Wall →
      (mdpRun g n).1 (g.getFlatIndex x y) = 0 ∧
      (mdpRun g n).2 (g.getFlatIndex x y) = 0) := by
  induction n with
  | zero =>
    refine ⟨fun _ h => absurd h (by omega), fun _ => ⟨rfl, rfl⟩⟩
  | succ n ih =>
    have hit := mdpIterate_at g none (mdpRun g n).1 (mdpRun g n).2 x y hv
    constructor
    · intro hgoal _
      show (MdpSolver.iterate g none (mdpRun g n).1 (mdpRun g n).2).1
        (g.getFlatIndex x y) = rewardGoal
      rw [hit.1, if_pos hgoal]
    · intro hwall
      have hng : ¬ g.getCell x y = CellType.Goal := by
        rw [hwall]; intro hh; exact CellType.noConfusion hh
      constructor
      · show (MdpSolver.iterate g none (mdpRun g n).1 (mdpRun g n).2).1
          (g.getFlatIndex x y) = 0
        rw [hit.1, if_neg hng, if_pos hwall]
      · show (MdpSolver.iterate g none (mdpRun g n).1 (mdpRun g n).2).2
          (g.getFlatIndex x y) = 0
        rw [hit.2, if_neg hng, if_pos hwall]
        exact (ih.2 hwall).2

theorem mdp_terminal_invariant_witness :
    goalWallGrid.isValid 0 0 ∧ goalWallGrid.isValid 1 0 ∧
      (mdpRun goalWallGrid 2).1 (goalWallGrid.getFlatIndex 0 0) = rewardGoal ∧
      (mdpRun goalWallGrid 2).1 (goalWallGrid.getFlatIndex 1 0) = 0 ∧
      (mdpRun goalWallGrid 2).2 (goalWallGrid.getFlatIndex 1 0) = 0 :=
  ⟨by decide, by decide,
   (mdp_terminal_invariant goalWallGrid 2 0 0 (by decide)).1 (by decide)
     (by omega),
   ((mdp_terminal_invariant goalWallGrid 2 1 0 (by decide)).2 (by decide)).1,
   ((mdp_terminal_invariant goalWallGrid 2 1 0 (by decide)).2 (by decide)).2⟩

/-!
### C5 — MDP transition model
-/

/-- C5: for every in-bounds non-`Goal`, non-`Wall` cell and each of the 4
cardinal actions, the source-side Q-value equals the spec-side mixture
`(1-ε)·outcome(intended) + (ε/2)·outcome(left-perp) + (ε/2)·outcome(right-perp)`,
the two noise indices `(a+3)%4` and `(a+1)%4` are exactly the two
perpendiculars of the intended direction, none of the three mixture
directions is the reverse direction (so the reverse has zero weight), and
the value the sweep writes at that cell is the max-fold of these
Q-values. -/
theorem mdp_transition_model (g : GridSystem) (pos : Option (ℚ × ℚ))
    (v p : ℤ → ℚ) (x y : ℤ) (a : ℕ) (ha : a < 4) (hv : g.isValid x y)
    (hng : g.getCell x y ≠ CellType.Goal)
    (hnw : g.getCell x y ≠ CellType.Wall) :
    MdpSolver.calculateQValue g v x y a = specQMixture g v x y (actionDir a) ∧
    actionDir ((a + 3) % 4) = perpLeft (actionDir a) ∧
    actionDir ((a + 1) % 4) = perpRight (actionDir a) ∧
    actionDir a ≠ reverseDir (actionDir a) ∧
    perpLeft (actionDir a) ≠ reverseDir (actionDir a) ∧
    perpRight (actionDir a) ≠ reverseDir (actionDir a) ∧
    (MdpSolver.iterate g pos v p).1 (g.getFlatIndex x y) =
      (MdpSolver.bestAction g v x y).1 := by
  have hsweep : (MdpSolver.iterate g pos v p).1 (g.getFlatIndex x y) =
      (MdpSolver.bestAction g v x y).1 := by
    rw [(mdpIterate_at g pos v p x y hv).1, if_neg hng, if_neg hnw]
  interval_cases a
  · exact ⟨rfl, by decide, by decide, by decide, by decide, by decide, hsweep⟩
  · exact ⟨rfl, by decide, by decide, by decide, by decide, by decide, hsweep⟩
  · exact ⟨rfl, by decide, by decide, by decide, by decide, by decide, hsweep⟩
  · exact ⟨rfl, by decide, by decide, by decide, by decide, by decide, hsweep⟩

theorem mdp_transition_model_witness :
    (0 < 4 ∧ emptyGrid.isValid 0 0 ∧
      emptyGrid.getCell 0 0 ≠ CellType.Goal ∧
      emptyGrid.getCell 0 0 ≠ CellType.Wall) ∧
    (MdpSolver.calculateQValue emptyGrid (fun _ => 0) 0 0 0 =
        specQMixture emptyGrid (fun _ => 0) 0 0 (actionDir 0) ∧
      actionDir ((0 + 3) % 4) = perpLeft (actionDir 0) ∧
      actionDir ((0 + 1) % 4) = perpRight (actionDir 0) ∧
      actionDir 0 ≠ reverseDir (actionDir 0) ∧
      perpLeft (actionDir 0) ≠ reverseDir (actionDir 0) ∧
      perpRight (actionDir 0) ≠ reverseDir (actionDir 0) ∧
      (MdpSolver.iterate emptyGrid none (fun _ => 0) (fun _ => 0)).1
          (emptyGrid.getFlatIndex 0 0) =
        (MdpSolver.bestAction emptyGrid (fun _ => 0) 0 0).1) :=
  ⟨⟨by omega, by decide, by decide, by decide⟩,
   mdp_transition_model emptyGrid none (fun _ => 0) (fun _ => 0) 0 0 0
     (by omega) (by decide) (by decide) (by decide)⟩

/-!
### C2 — the agent experiences the physical wind field
-/

/-- C2: on every tick whose current cell is not a `Goal`, the candidate next
position is the current position plus the (jittered) policy direction scaled
by speed and delta-time, and the wind-field vector read live from the grid
at the candidate cell is applied as an additional displacement; the move is
then committed, or rejected with a `Wall` stop if the displaced cell is a
`Wall` or off-grid. -/
theorem agent_wind_displacement (g : GridSystem) (policy : ℤ → ℚ)
    (dt jx jz : ℚ) (s : AgentState)
    (hng : g.getCell ⌊s.x⌋ ⌊s.z⌋ ≠ CellType.Goal) :
    Agent.update g policy dt jx jz s =
      (let d := dirOfAngle (policy (g.getFlatIndex ⌊s.x⌋ ⌊s.z⌋))
       let cx := s.x + (d.1 + jx) * agentSpeed * dt
       let cz := s.z + (d.2 + jz) * agentSpeed * dt
       let w := g.getWindVector ⌊cx⌋ ⌊cz⌋
       if g.isValid ⌊cx + w.1⌋ ⌊cz + w.2⌋ ∧
           g.getCell ⌊cx + w.1⌋ ⌊cz + w.2⌋ ≠ CellType.Wall then
         { s with x := cx + w.1, z := cz + w.2 }
       else
         { s with stopped := true, stopReason := StopReason.wall }) := by
  unfold Agent.update
  rw [if_neg hng]

theorem agent_wind_displacement_witness :
    corridorGrid.getCell ⌊agentStart.x⌋ ⌊agentStart.z⌋ ≠ CellType.Goal ∧
      Agent.update corridorGrid (fun _ => 0) (1/8) 0 0 agentStart =
        (let d := dirOfAngle ((fun _ => (0 : ℚ))
           (corridorGrid.getFlatIndex ⌊agentStart.x⌋ ⌊agentStart.z⌋))
         let cx := agentStart.x + (d.1 + 0) * agentSpeed * (1/8)
         let cz := agentStart.z + (d.2 + 0) * agentSpeed * (1/8)
         let w := corridorGrid.getWindVector ⌊cx⌋ ⌊cz⌋
         if corridorGrid.isValid ⌊cx + w.1⌋ ⌊cz + w.2⌋ ∧
             corridorGrid.getCell ⌊cx + w.1⌋ ⌊cz + w.2⌋ ≠ CellType.Wall then
           { agentStart with x := cx + w.1, z := cz + w.2 }
         else
           { agentStart with
             stopped := true
             stopReason := StopReason.wall }) := by
  have hfl : (⌊agentStart.x⌋ : ℤ) = 0 := by
    rw [show agentStart.x = 1/2 from rfl]
    norm_num
  have hfl2 : (⌊agentStart.z⌋ : ℤ) = 0 := by
    rw [show agentStart.z = 1/2 from rfl]
    norm_num
  refine ⟨?_, agent_wind_displacement corridorGrid (fun _ => 0) (1/8) 0 0
    agentStart ?_⟩ <;>
  · rw [hfl, hfl2]
    decide

/-!
### C1 — hazard blindness of both planners
-/

theorem retype_width (g : GridSystem) (sel : ℤ → ℤ → Bool) :
    (retypeWind g sel).width = g.width := rfl

theorem retype_height (g : GridSystem) (sel : ℤ → ℤ → Bool) :
    (retypeWind g sel).height = g.height := rfl

theorem retype_isValid (g : GridSystem) (sel : ℤ → ℤ → Bool) (x y : ℤ) :
    (retypeWind g sel).isValid x y ↔ g.isValid x y := Iff.rfl

theorem retype_getFlatIndex (g : GridSystem) (sel : ℤ → ℤ → Bool) (x y : ℤ) :
    (retypeWind g sel).getFlatIndex x y = g.getFlatIndex x y := rfl

theorem getCell_invalid (g : GridSystem) (x y : ℤ) (h : ¬ g.isValid x y) :
    g.getCell x y = CellType.Wall := by
  unfold GridSystem.getCell
  rw [if_neg h]

theorem retype_cells (g : GridSystem) (sel : ℤ → ℤ → Bool) (x y : ℤ) :
    (retypeWind g sel).cells x y =
      if sel x y = true ∧ g.isValid x y ∧ g.cells x y = CellType.Wind then
        CellType.Empty
      else g.cells x y := rfl

theorem retype_getCell_wall (g : GridSystem) (sel : ℤ → ℤ → Bool) (x y : ℤ) :
    (retypeWind g sel).getCell x y = CellType.Wall ↔
      g.getCell x y = CellType.Wall := by
  by_cases hv : g.isValid x y
  · have hv' : (retypeWind g sel).isValid x y := (retype_isValid g sel x y).mpr hv
    rw [getCell_eq_cells _ _ _ hv', getCell_eq_cells _ _ _ hv, retype_cells]
    by_cases hc : sel x y = true ∧ g.isValid x y ∧ g.cells x y = CellType.Wind
    · rw [if_pos hc, hc.2.2]
      exact ⟨fun h => CellType.noConfusion h, fun h => CellType.noConfusion h⟩
    · rw [if_neg hc]
  · have hv' : ¬ (retypeWind g sel).isValid x y :=
      fun hh => hv ((retype_isValid g sel x y).mp hh)
    rw [getCell_invalid _ _ _ hv', getCell_invalid _ _ _ hv]

theorem retype_getCell_goal (g : GridSystem) (sel : ℤ → ℤ → Bool) (x y : ℤ) :
    (retypeWind g sel).getCell x y = CellType.Goal ↔
      g.getCell x y = CellType.Goal := by
  by_cases hv : g.isValid x y
  · have hv' : (retypeWind g sel).isValid x y := (retype_isValid g sel x y).mpr hv
    rw [getCell_eq_cells _ _ _ hv', getCell_eq_cells _ _ _ hv, retype_cells]
    by_cases hc : sel x y = true ∧ g.isValid x y ∧ g.cells x y = CellType.Wind
    · rw [if_pos hc, hc.2.2]
      exact ⟨fun h => CellType.noConfusion h, fun h => CellType.noConfusion h⟩
    · rw [if_neg hc]
  · have hv' : ¬ (retypeWind g sel).isValid x y :=
      fun hh => hv ((retype_isValid g sel x y).mp hh)
    rw [getCell_invalid _ _ _ hv', getCell_invalid _ _ _ hv]

theorem retype_getTransitionValue (g : GridSystem) (sel : ℤ → ℤ → Bool)
    (v : ℤ → ℚ) (x y : ℤ) (a : ℕ) :
    MdpSolver.getTransitionValue (retypeWind g sel) v x y a =
      MdpSolver.getTransitionValue g v x y a := by
  unfold MdpSolver.getTransitionValue
  simp only [retype_isValid, retype_getCell_wall, retype_getFlatIndex]

theorem retype_calculateQValue (g : GridSystem) (sel : ℤ → ℤ → Bool)
    (v : ℤ → ℚ) (x y : ℤ) (a : ℕ) :
    MdpSolver.calculateQValue (retypeWind g sel) v x y a =
      MdpSolver.calculateQValue g v x y a := by
  unfold MdpSolver.calculateQValue
  simp only [retype_getTransitionValue]

theorem retype_bestAction (g : GridSystem) (sel : ℤ → ℤ → Bool)
    (v : ℤ → ℚ) (x y : ℤ) :
    MdpSolver.bestAction (retypeWind g sel) v x y =
      MdpSolver.bestAction g v x y := by
  unfold MdpSolver.bestAction
  simp only [retype_calculateQValue]

theorem retype_mdpIterate (g : GridSystem) (sel : ℤ → ℤ → Bool)
    (pos : Option (ℚ × ℚ)) (v p : ℤ → ℚ) :
    MdpSolver.iterate (retypeWind g sel) pos v p =
      MdpSolver.iterate g pos v p := by
  unfold MdpSolver.iterate
  simp only [retype_width, retype_height, retype_getCell_goal,
    retype_getCell_wall, retype_bestAction]

theorem retype_goalsOf (g : GridSystem) (sel : ℤ → ℤ → Bool) :
    goalsOf (retypeWind g sel) = goalsOf g := by
  unfold goalsOf
  simp only [retype_width, retype_height, retype_getCell_goal]

theorem retype_astarRelax (g : GridSystem) (sel : ℤ → ℤ → Bool)
    (goal : ℤ × ℤ) (cur : ANode) (closed : List ℤ) :
    astarRelax (retypeWind g sel) goal cur closed =
      astarRelax g goal cur closed := by
  funext st a
  unfold astarRelax
  simp only [retype_isValid, retype_getCell_wall, retype_getFlatIndex]

theorem retype_astarLoop (g : GridSystem) (sel : ℤ → ℤ → Bool)
    (goal : ℤ × ℤ) (fuel : ℕ) :
    ∀ (openList : List ANode) (closed : List ℤ) (cf : List (ℤ × ℤ × ℚ))
      (pol val : ℤ → ℚ),
      astarLoop (retypeWind g sel) goal fuel openList closed cf pol val =
        astarLoop g goal fuel openList closed cf pol val := by
  induction fuel with
  | zero => intro openList closed cf pol val; rfl
  | succ fuel ih =>
    intro openList closed cf pol val
    unfold astarLoop
    cases sortByF openList with
    | nil => rfl
    | cons cur rest =>
      simp only [retype_getFlatIndex, retype_astarRelax, ih]

theorem retype_astarIterate (g : GridSystem) (sel : ℤ → ℤ → Bool)
    (pos : Option (ℚ × ℚ)) (s : AState) :
    AStarSolver.iterate (retypeWind g sel) pos s =
      AStarSolver.iterate g pos s := by
  unfold AStarSolver.iterate
  cases pos with
  | none => rfl
  | some p =>
    simp only [retype_isValid, retype_goalsOf, retype_width, retype_height,
      retype_getFlatIndex, retype_astarLoop]

/-- C1: retyping any set of in-bounds `Wind` cells to `Empty` (removing
their wind configurations) leaves the values and policy arrays produced by
`MdpSolver.iterate` and by `AStarSolver.iterate` unchanged: both planners
are blind to wind at planning time. -/
theorem hazard_blindness (g : GridSystem) (sel : ℤ → ℤ → Bool)
    (pos : Option (ℚ × ℚ)) (v p : ℤ → ℚ) (s : AState) :
    MdpSolver.iterate (retypeWind g sel) pos v p =
        MdpSolver.iterate g pos v p ∧
      AStarSolver.iterate (retypeWind g sel) pos s =
        AStarSolver.iterate g pos s :=
  ⟨retype_mdpIterate g sel pos v p, retype_astarIterate g sel pos s⟩

/-!
### Sorting and open-set lemmas
-/

theorem insertByF_perm (n : ANode) (l : List ANode) :
    List.Perm (insertByF n l) (n :: l) := by
  induction l with
  | nil => exact List.Perm.refl _
  | cons m r ih =>
    unfold insertByF
    by_cases h : n.f ≤ m.f
    · rw [if_pos h]
    · rw [if_neg h]
      exact List.Perm.trans (List.Perm.cons m ih) (List.Perm.swap n m r)

theorem sortByF_perm (l : List ANode) : List.Perm (sortByF l) l := by
  induction l with
  | nil => exact List.Perm.refl _
  | cons n r ih =>
    exact List.Perm.trans (insertByF_perm n (sortByF r)) (List.Perm.cons n ih)

theorem sortByF_mem (n : ANode) (l : List ANode) :
    n ∈ sortByF l ↔ n ∈ l :=
  (sortByF_perm l).mem_iff

theorem insertByF_pairwise (n : ANode) (l : List ANode)
    (h : List.Pairwise (fun a b : ANode => a.f ≤ b.f) l) :
    List.Pairwise (fun a b : ANode => a.f ≤ b.f) (insertByF n l) := by
  induction l with
  | nil => exact List.pairwise_singleton _ n
  | cons m r ih =>
    unfold insertByF
    by_cases hf : n.f ≤ m.f
    · rw [if_pos hf]
      refine List.Pairwise.cons ?_ h
      intro b hb
      rcases List.mem_cons.mp hb with hb | hb
      · rw [hb]; exact hf
      · exact le_trans hf (List.rel_of_pairwise_cons h hb)
    · rw [if_neg hf]
      refine List.Pairwise.cons ?_ (ih (List.Pairwise.of_cons h))
      intro b hb
      rcases List.mem_cons.mp ((insertByF_perm n r).mem_iff.mp hb) with hb | hb
      · rw [hb]; exact le_of_not_le hf
      · exact List.rel_of_pairwise_cons h hb

theorem sortByF_pairwise (l : List ANode) :
    List.Pairwise (fun a b : ANode => a.f ≤ b.f) (sortByF l) := by
  induction l with
  | nil => exact List.Pairwise.nil
  | cons n r ih => exact insertByF_pairwise n (sortByF r) ih

theorem sortByF_head_min (l : List ANode) (cur : ANode) (rest : List ANode)
    (h : sortByF l = cur :: rest) : ∀ n ∈ l, cur.f ≤ n.f := by
  intro n hn
  have hm : n ∈ cur :: rest := by
    rw [← h, sortByF_mem]; exact hn
  rcases List.mem_cons.mp hm with hm | hm
  · rw [hm]
  · have hp := sortByF_pairwise l
    rw [h] at hp
    exact List.rel_of_pairwise_cons hp hm

theorem updateNode_mem (nx ny : ℤ) (ng nf : ℚ) (l : List ANode) :
    ∀ m ∈ updateNode nx ny ng nf l,
      m = ⟨nx, ny, ng, nf⟩ ∨ m ∈ l := by
  induction l with
  | nil => intro m hm; exact absurd hm (List.not_mem_nil m)
  | cons e r ih =>
    intro m hm
    unfold updateNode at hm
    by_cases he : e.x = nx ∧ e.y = ny
    · rw [if_pos he] at hm
      rcases List.mem_cons.mp hm with hm | hm
      · exact Or.inl hm
      · exact Or.inr (List.mem_cons_of_mem e hm)
    · rw [if_neg he] at hm
      rcases List.mem_cons.mp hm with hm | hm
      · exact Or.inr (by rw [hm]; exact List.mem_cons_self e r)
      · rcases ih m hm with h1 | h1
        · exact Or.inl h1
        · exact Or.inr (List.mem_cons_of_mem e h1)

/-!
### Path-extension lemmas
-/

theorem pathFromTo_snoc (g : GridSystem) (s c c' : ℤ × ℤ)
    (l : List (ℤ × ℤ)) (hl : PathFromTo g s c l) (hstep : stepOk g c c') :
    PathFromTo g s c' (l ++ [c']) := by
  obtain ⟨⟨hne, hhead, hchain⟩, hh, hlast⟩ := hl
  refine ⟨⟨by simp, ?_, ?_⟩, ?_, ?_⟩
  · intro d hd
    rw [List.head?_append_of_ne_nil _ hne] at hd
    rw [hh] at hd
    rw [hh] at hhead
    have hds : s = d := by simpa using hd
    rw [← hds]
    exact hhead s rfl
  · rw [List.chain'_append]
    refine ⟨hchain, List.chain'_singleton c', ?_⟩
    intro a ha b hb
    rw [hlast] at ha
    have ha' : c = a := by simpa using ha
    have hb' : c' = b := by simpa using hb
    rw [← ha', ← hb']
    exact hstep
  · rw [List.head?_append_of_ne_nil _ hne]
    exact hh
  · simp

theorem reachesP_refl (g : GridSystem) (s : ℤ × ℤ)
    (hv : g.isValid s.1 s.2) : ReachesP g s s := by
  refine ⟨[s], ⟨⟨by simp, ?_, List.chain'_singleton s⟩, by simp, by simp⟩⟩
  intro d hd
  have hds : s = d := by simpa using hd
  rw [← hds]
  exact hv

theorem reachesP_step (g : GridSystem) (s c c' : ℤ × ℤ)
    (h : ReachesP g s c) (hstep : stepOk g c c') : ReachesP g s c' := by
  obtain ⟨l, hl⟩ := h
  exact ⟨l ++ [c'], pathFromTo_snoc g s c c' l hl hstep⟩

/-!
### C3 — A* behaviour when no goal is reachable
-/

theorem astarRelax_reach (g : GridSystem) (goal start : ℤ × ℤ) (cur : ANode)
    (closed : List ℤ) (hcur : ReachesP g start (cur.x, cur.y)) (a : ℕ)
    (ha : a < 4) (st : List ANode × List (ℤ × ℤ × ℚ) × (ℤ → ℚ))
    (hopen : ∀ n ∈ st.1, ReachesP g start (n.x, n.y))
    (hval : ∀ idx, st.2.2 idx = 0 ∨ st.2.2 idx = 2/10) :
    (∀ n ∈ (astarRelax g goal cur closed st a).1,
      ReachesP g start (n.x, n.y)) ∧
    (∀ idx, (astarRelax g goal cur closed st a).2.2 idx = 0 ∨
      (astarRelax g goal cur closed st a).2.2 idx = 2/10) := by
  unfold astarRelax
  by_cases h1 : ¬ g.isValid (cur.x + (actionDir a).1) (cur.y + (actionDir a).2)
  · rw [if_pos h1]; exact ⟨hopen, hval⟩
  · rw [if_neg h1]
    by_cases h2 : g.getCell (cur.x + (actionDir a).1) (cur.y + (actionDir a).2)
        = CellType.Wall
    · rw [if_pos h2]; exact ⟨hopen, hval⟩
    · rw [if_neg h2]
      by_cases h3 : g.getFlatIndex (cur.x + (actionDir a).1)
          (cur.y + (actionDir a).2) ∈ closed
      · rw [if_pos h3]; exact ⟨hopen, hval⟩
      · rw [if_neg h3]
        dsimp only
        have hstep : stepOk g (cur.x, cur.y)
            (cur.x + (actionDir a).1, cur.y + (actionDir a).2) := by
          refine ⟨⟨a, ha, rfl⟩, not_not.mp h1, h2⟩
        have hreach : ReachesP g start
            (cur.x + (actionDir a).1, cur.y + (actionDir a).2) :=
          reachesP_step g start (cur.x, cur.y) _ hcur hstep
        cases hfind : findNode st.1 (cur.x + (actionDir a).1)
            (cur.y + (actionDir a).2) with
        | none =>
          dsimp only
          constructor
          · intro n hn
            rcases List.mem_append.mp hn with hn | hn
            · exact hopen n hn
            · have : n = ⟨cur.x + (actionDir a).1, cur.y + (actionDir a).2,
                cur.g + 1, cur.g + 1 + manhQ (cur.x + (actionDir a).1)
                  (cur.y + (actionDir a).2) goal.1 goal.2⟩ := by
                simpa using hn
              rw [this]
              exact hreach
          · intro idx
            by_cases hidx : idx = g.getFlatIndex (cur.x + (actionDir a).1)
                (cur.y + (actionDir a).2)
            · right
              simp [hidx]
            · rcases hval idx with h | h
              · left; simpa [hidx] using h
              · right; simpa [hidx] using h
        | some ex =>
          dsimp only
          by_cases hg : cur.g + 1 < ex.g
          · rw [if_pos hg]
            dsimp only
            constructor
            · intro n hn
              rcases updateNode_mem _ _ _ _ st.1 n hn with hn | hn
              · rw [hn]
                exact hreach
              · exact hopen n hn
            · intro idx
              by_cases hidx : idx = g.getFlatIndex (cur.x + (actionDir a).1)
                  (cur.y + (actionDir a).2)
              · right
                simp [hidx]
              · rcases hval idx with h | h
                · left; simpa [hidx] using h
                · right; simpa [hidx] using h
          · rw [if_neg hg]
            exact ⟨hopen, hval⟩

theorem relaxFold_reach (g : GridSystem) (goal start : ℤ × ℤ) (cur : ANode)
    (closed : List ℤ) (hcur : ReachesP g start (cur.x, cur.y)) :
    ∀ (acts : List ℕ), (∀ a ∈ acts, a < 4) →
    ∀ (st : List ANode × List (ℤ × ℤ × ℚ) × (ℤ → ℚ)),
      (∀ n ∈ st.1, ReachesP g start (n.x, n.y)) →
      (∀ idx, st.2.2 idx = 0 ∨ st.2.2 idx = 2/10) →
      (∀ n ∈ (acts.foldl (astarRelax g goal cur closed) st).1,
        ReachesP g start (n.x, n.y)) ∧
      (∀ idx, (acts.foldl (astarRelax g goal cur closed) st).2.2 idx = 0 ∨
        (acts.foldl (astarRelax g goal cur closed) st).2.2 idx = 2/10) := by
  intro acts
  induction acts with
  | nil => intro _ st hopen hval; exact ⟨hopen, hval⟩
  | cons a rest ih =>
    intro hacts st hopen hval
    have ha : a < 4 := hacts a (List.mem_cons_self a rest)
    have hstep := astarRelax_reach g goal start cur closed hcur a ha st
      hopen hval
    exact ih (fun b hb => hacts b (List.mem_cons_of_mem a hb)) _
      hstep.1 hstep.2

theorem astarLoop_nopath (g : GridSystem) (goal start : ℤ × ℤ)
    (hgoal : ¬ ReachesP g start goal) :
    ∀ (fuel : ℕ) (openList : List ANode) (closed : List ℤ)
      (cf : List (ℤ × ℤ × ℚ)) (pol val : ℤ → ℚ),
      (∀ n ∈ openList, ReachesP g start (n.x, n.y)) →
      (∀ idx, val idx = 0 ∨ val idx = 2/10) →
      (astarLoop g goal fuel openList closed cf pol val).1 = pol ∧
      (∀ idx, (astarLoop g goal fuel openList closed cf pol val).2 idx = 0 ∨
        (astarLoop g goal fuel openList closed cf pol val).2 idx = 2/10) := by
  intro fuel
  induction fuel with
  | zero => intro openList closed cf pol val _ hval; exact ⟨rfl, hval⟩
  | succ fuel ih =>
    intro openList closed cf pol val hopen hval
    unfold astarLoop
    cases hs : sortByF openList with
    | nil => exact ⟨rfl, hval⟩
    | cons cur rest =>
      dsimp only
      have hcurmem : cur ∈ sortByF openList := by
        rw [hs]
        exact List.mem_cons_self cur rest
      have hcur : ReachesP g start (cur.x, cur.y) :=
        hopen cur ((sortByF_mem cur openList).mp hcurmem)
      have hrest : ∀ n ∈ rest, ReachesP g start (n.x, n.y) := by
        intro n hn
        have hnmem : n ∈ sortByF openList := by
          rw [hs]
          exact List.mem_cons_of_mem cur hn
        exact hopen n ((sortByF_mem n openList).mp hnmem)
      have hne : ¬ (cur.x = goal.1 ∧ cur.y = goal.2) := by
        intro ⟨hx, hy⟩
        apply hgoal
        have : (cur.x, cur.y) = goal := by rw [hx, hy]
        rw [← this]
        exact hcur
      rw [if_neg hne]
      have hfold := relaxFold_reach g goal start cur
        (g.getFlatIndex cur.x cur.y :: closed) hcur [0, 1, 2, 3]
        (by intro a ha; fin_cases ha <;> omega) (rest, cf, val)
        hrest hval
      exact ih _ _ _ pol _ hfold.1 hfold.2

/-- C3 counterexample: on an empty 2×2 grid (no goal anywhere), calling
`iterate` with the in-bounds position `(0,0)` over a prior state whose
arrays are all 1 does not leave the arrays at their previous values — they
are zeroed. -/
theorem astar_nopath_counterexample :
    AStarSolver.iterate emptyGrid (some (0, 0)) onesState ≠ onesState := by
  have hfl : (⌊(0 : ℚ)⌋ : ℤ) = 0 := Int.floor_zero
  have hres : AStarSolver.iterate emptyGrid (some (0, 0)) onesState =
      ⟨fun _ => 0, fun _ => 0⟩ := by
    unfold AStarSolver.iterate
    dsimp only
    simp only [hfl]
    rw [if_neg (by decide : ¬ ¬ emptyGrid.isValid 0 0)]
    rw [show goalsOf emptyGrid = [] from by decide]
  intro h
  rw [hres] at h
  have : (0 : ℚ) = 1 := congrArg (fun st : AState => st.values 0) h
  exact absurd this (by norm_num)

/-- C3 (amended): if no `Goal` cell exists, or every `Goal` cell is
unreachable from the in-bounds start cell by 4-connected non-`Wall` moves,
then `AStarSolver.iterate` does not mark any path: it zeroes the policy
array (leaving every entry 0, not the prior state), and every entry of the
values array ends as 0 or as the 0.2 visited-cell sentinel — never the 1.0
path mark.  (The original claim that the arrays are left at their previous
state is refuted by `astar_nopath_counterexample`: `iterate` zeroes both
arrays before searching.) -/
theorem astar_nopath_amended (g : GridSystem) (s : AState) (px pz : ℚ)
    (hv : g.isValid ⌊px⌋ ⌊pz⌋)
    (hgoal : ∀ c ∈ goalsOf g, ¬ ReachesP g (⌊px⌋, ⌊pz⌋) c) :
    (∀ idx, (AStarSolver.iterate g (some (px, pz)) s).policy idx = 0) ∧
    (∀ idx, (AStarSolver.iterate g (some (px, pz)) s).values idx = 0 ∨
      (AStarSolver.iterate g (some (px, pz)) s).values idx = 2/10) := by
  unfold AStarSolver.iterate
  dsimp only
  rw [if_neg (not_not.mpr hv)]
  cases hgl : goalsOf g with
  | nil => exact ⟨fun _ => rfl, fun _ => Or.inl rfl⟩
  | cons goal rest =>
    dsimp only
    have hunreach : ¬ ReachesP g (⌊px⌋, ⌊pz⌋) goal :=
      hgoal goal (by rw [hgl]; exact List.mem_cons_self goal rest)
    have hloop := astarLoop_nopath g goal (⌊px⌋, ⌊pz⌋) hunreach
      (g.width * g.height + 1)
      [⟨⌊px⌋, ⌊pz⌋, 0, manhQ ⌊px⌋ ⌊pz⌋ goal.1 goal.2⟩] [] []
      (fun _ => 0) (fun _ => 0)
      (by
        intro n hn
        have : n = ⟨⌊px⌋, ⌊pz⌋, 0, manhQ ⌊px⌋ ⌊pz⌋ goal.1 goal.2⟩ := by
          simpa using hn
        rw [this]
        exact reachesP_refl g (⌊px⌋, ⌊pz⌋) hv)
      (fun _ => Or.inl rfl)
    exact ⟨fun idx => by rw [hloop.1], hloop.2⟩

theorem astar_nopath_amended_witness :
    (emptyGrid.isValid ⌊(0 : ℚ)⌋ ⌊(0 : ℚ)⌋ ∧
      ∀ c ∈ goalsOf emptyGrid, ¬ ReachesP emptyGrid (⌊(0 : ℚ)⌋, ⌊(0 : ℚ)⌋) c) ∧
    ((∀ idx,
        (AStarSolver.iterate emptyGrid (some (0, 0)) onesState).policy idx
          = 0) ∧
      (∀ idx,
        (AStarSolver.iterate emptyGrid (some (0, 0)) onesState).values idx
            = 0 ∨
          (AStarSolver.iterate emptyGrid (some (0, 0)) onesState).values idx
            = 2/10)) := by
  have h1 : emptyGrid.isValid ⌊(0 : ℚ)⌋ ⌊(0 : ℚ)⌋ := by
    rw [Int.floor_zero]
    decide
  have h2 : ∀ c ∈ goalsOf emptyGrid,
      ¬ ReachesP emptyGrid (⌊(0 : ℚ)⌋, ⌊(0 : ℚ)⌋) c := by
    intro c hc
    rw [show goalsOf emptyGrid = [] from by decide] at hc
    exact absurd hc (List.not_mem_nil c)
  exact ⟨⟨h1, h2⟩, astar_nopath_amended emptyGrid onesState 0 0 h1 h2⟩

/-!
### C7 groundwork: Manhattan metric, flat-index injectivity, paths
-/

theorem manhQ_nonneg (x1 y1 x2 y2 : ℤ) : 0 ≤ manhQ x1 y1 x2 y2 := by
  unfold manhQ
  have : (0 : ℤ) ≤ |x1 - x2| + |y1 - y2| := by positivity
  exact_mod_cast this

theorem manhQ_self (x y : ℤ) : manhQ x y x y = 0 := by
  unfold manhQ
  simp

theorem manhQ_triangle (x1 y1 x2 y2 x3 y3 : ℤ) :
    manhQ x1 y1 x3 y3 ≤ manhQ x1 y1 x2 y2 + manhQ x2 y2 x3 y3 := by
  unfold manhQ
  have h1 : |x1 - x3| ≤ |x1 - x2| + |x2 - x3| := abs_sub_le x1 x2 x3
  have h2 : |y1 - y3| ≤ |y1 - y2| + |y2 - y3| := abs_sub_le y1 y2 y3
  have : |x1 - x3| + |y1 - y3| ≤
      (|x1 - x2| + |y1 - y2|) + (|x2 - x3| + |y2 - y3|) := by omega
  exact_mod_cast this

theorem stepOk_manh (g : GridSystem) (c c' : ℤ × ℤ) (h : stepOk g c c') :
    manhQ c.1 c.2 c'.1 c'.2 ≤ 1 := by
  obtain ⟨⟨a, ha, hc⟩, _, _⟩ := h
  rw [hc]
  unfold manhQ
  have : |c.1 - (c.1 + (actionDir a).1)| + |c.2 - (c.2 + (actionDir a).2)|
      ≤ 1 := by
    interval_cases a <;> simp [actionDir]
  exact_mod_cast this

theorem flat_inj (g : GridSystem) (x y x' y' : ℤ) (hv : g.isValid x y)
    (hv' : g.isValid x' y') (h : g.getFlatIndex x y = g.getFlatIndex x' y') :
    x = x' ∧ y = y' := by
  obtain ⟨_, _, hm, hd⟩ := flat_decode g x y hv
  obtain ⟨_, _, hm', hd'⟩ := flat_decode g x' y' hv'
  constructor
  · rw [← hm, ← hm', h]
  · rw [← hd, ← hd', h]

theorem chain'_cells_valid (g : GridSystem) :
    ∀ (l : List (ℤ × ℤ)) (c : ℤ × ℤ),
      List.Chain' (stepOk g) (c :: l) → g.isValid c.1 c.2 →
      ∀ p ∈ c :: l, g.isValid p.1 p.2 := by
  intro l
  induction l with
  | nil =>
    intro c _ hc p hp
    rw [show p = c from by simpa using hp]
    exact hc
  | cons d rest ih =>
    intro c hchain hc p hp
    have hstep : stepOk g c d := (List.chain'_cons.mp hchain).1
    rcases List.mem_cons.mp hp with hp | hp
    · rw [hp]; exact hc
    · exact ih d (List.chain'_cons.mp hchain).2 hstep.2.1 p hp

theorem pathFromTo_valid_mem (g : GridSystem) (s t : ℤ × ℤ)
    (l : List (ℤ × ℤ)) (hl : PathFromTo g s t l) :
    ∀ p ∈ l, g.isValid p.1 p.2 := by
  obtain ⟨⟨hne, hhead, hchain⟩, hh, _⟩ := hl
  cases l with
  | nil => exact absurd rfl hne
  | cons c rest =>
    have hc : g.isValid c.1 c.2 := hhead c rfl
    exact chain'_cells_valid g rest c hchain hc

theorem pathFromTo_unsnoc (g : GridSystem) (s t : ℤ × ℤ)
    (l : List (ℤ × ℤ)) (hl : PathFromTo g s t l) :
    (l = [s] ∧ t = s) ∨
    ∃ (l0 : List (ℤ × ℤ)) (v : ℤ × ℤ), l = l0 ++ [t] ∧
      PathFromTo g s v l0 ∧ stepOk g v t := by
  obtain ⟨⟨hne, hhead, hchain⟩, hh, hlast⟩ := hl
  have hl' : l.dropLast ++ [l.getLast hne] = l :=
    List.dropLast_append_getLast hne
  have hlt : l.getLast hne = t := by
    have h1 := List.getLast?_eq_getLast l hne
    rw [hlast] at h1
    exact (Option.some_injective _ h1).symm
  cases hdl : l.dropLast with
  | nil =>
    left
    have hlt' : l = [t] := by
      rw [← hl', hdl, hlt]
      rfl
    have hts : t = s := by
      rw [hlt'] at hh
      simpa using hh
    rw [hts] at hlt'
    exact ⟨hlt', hts⟩
  | cons d0 drest =>
    right
    have hne0 : l.dropLast ≠ [] := by rw [hdl]; intro h; exact List.noConfusion h
    have hsplit : l = l.dropLast ++ [t] := by rw [← hlt]; exact hl'.symm
    have hchain0 : List.Chain' (stepOk g) l.dropLast := by
      rw [hsplit] at hchain
      exact (List.chain'_append.mp hchain).1
    have hhead0 : l.dropLast.head? = some s := by
      rw [hsplit] at hh
      rw [← hh]
      exact (List.head?_append_of_ne_nil _ hne0).symm
    have hstep : stepOk g (l.dropLast.getLast hne0) t := by
      rw [hsplit] at hchain
      have h3 := (List.chain'_append.mp hchain).2.2
      exact h3 _ (List.getLast?_eq_getLast _ hne0) t rfl
    refine ⟨l.dropLast, l.dropLast.getLast hne0, hsplit, ⟨⟨hne0, ?_, hchain0⟩,
      hhead0, List.getLast?_eq_getLast _ hne0⟩, hstep⟩
    intro c hc
    rw [hhead0] at hc
    have hsc : s = c := by simpa using hc
    rw [← hsc]
    exact hhead s (by rw [hh]; rfl)

theorem reachesInN_of_path (g : GridSystem) (s t : ℤ × ℤ)
    (l : List (ℤ × ℤ)) (hl : PathFromTo g s t l) :
    ReachesInN g s t (l.length - 1) := by
  have hne : l ≠ [] := hl.1.1
  have hpos : 1 ≤ l.length := List.length_pos.mpr hne
  exact ⟨l, hl, by omega⟩

theorem dist_exists (g : GridSystem) (s t : ℤ × ℤ) (h : ReachesP g s t) :
    ∃ k, IsDist g s t k := by
  obtain ⟨l, hl⟩ := h
  have hmem : l.length - 1 ∈ {k | ReachesInN g s t k} :=
    reachesInN_of_path g s t l hl
  refine ⟨sInf {k | ReachesInN g s t k}, ?_, ?_⟩
  · exact Nat.sInf_mem ⟨l.length - 1, hmem⟩
  · intro j hj
    exact Nat.sInf_le hj

theorem isDist_le (g : GridSystem) (s t : ℤ × ℤ) (k j : ℕ)
    (hk : IsDist g s t k) (hj : ReachesInN g s t j) : k ≤ j :=
  hk.2 j hj

/-!
### Shortest paths are duplicate-free
-/

theorem not_nodup_split {α : Type} (l : List α) (h : ¬ l.Nodup) :
    ∃ (a : α) (l1 l2 l3 : List α), l = l1 ++ a :: l2 ++ a :: l3 := by
  induction l with
  | nil => exact absurd List.nodup_nil h
  | cons c r ih =>
    by_cases hc : c ∈ r
    · obtain ⟨l2, l3, hr⟩ := List.append_of_mem hc
      exact ⟨c, [], l2, l3, by rw [hr]; rfl⟩
    · have hr : ¬ r.Nodup := by
        intro hn
        exact h (List.Nodup.cons hc hn)
      obtain ⟨a, l1, l2, l3, hsp⟩ := ih hr
      exact ⟨a, c :: l1, l2, l3, by rw [hsp]; rfl⟩

theorem pathFromTo_splice (g : GridSystem) (s t a : ℤ × ℤ)
    (l1 l2 l3 : List (ℤ × ℤ))
    (hl : PathFromTo g s t (l1 ++ a :: l2 ++ a :: l3)) :
    PathFromTo g s t (l1 ++ a :: l3) := by
  obtain ⟨⟨hne, hhead, hchain⟩, hh, hlast⟩ := hl
  have hre : l1 ++ a :: l2 ++ a :: l3 = (l1 ++ a :: l2) ++ (a :: l3) := by
    simp
  rw [hre] at hchain
  have hparts := List.chain'_append.mp hchain
  have hchain1 : List.Chain' (stepOk g) (l1 ++ [a]) := by
    have h1 : List.Chain' (stepOk g) (l1 ++ a :: l2) := hparts.1
    have hre2 : l1 ++ a :: l2 = (l1 ++ [a]) ++ l2 := by simp
    rw [hre2] at h1
    exact (List.chain'_append.mp h1).1
  have hchain3 : List.Chain' (stepOk g) (a :: l3) := hparts.2.1
  have hlink : ∀ x ∈ (l1 ++ [a]).getLast?, ∀ y ∈ l3.head?, stepOk g x y := by
    intro x hx y hy
    have hx' : a = x := by
      rw [List.getLast?_concat] at hx
      simpa using hx
    rw [← hx']
    have := List.chain'_cons'.mp hchain3
    exact this.1 y hy
  have hchainS : List.Chain' (stepOk g) (l1 ++ a :: l3) := by
    have hre3 : l1 ++ a :: l3 = (l1 ++ [a]) ++ l3 := by simp
    rw [hre3]
    exact List.chain'_append.mpr ⟨hchain1, (List.chain'_cons'.mp hchain3).2,
      hlink⟩
  refine ⟨⟨by simp, ?_, hchainS⟩, ?_, ?_⟩
  · intro c hc
    apply hhead c
    cases l1 with
    | nil => simpa using hc
    | cons d r => simpa using hc
  · cases l1 with
    | nil => simpa using hh
    | cons d r => simpa using hh
  · rw [show l1 ++ a :: l2 ++ a :: l3 = (l1 ++ a :: l2) ++ (a :: l3) from by
      simp] at hlast
    cases l3 with
    | nil =>
      rw [List.getLast?_append_of_ne_nil _ (by simp)] at hlast
      rw [List.getLast?_concat]
      simpa using hlast
    | cons e r =>
      rw [List.getLast?_append_of_ne_nil _ (by simp)] at hlast
      rw [show l1 ++ a :: e :: r = (l1 ++ [a]) ++ (e :: r) from by simp,
        List.getLast?_append_of_ne_nil _ (by simp)]
      simpa using hlast

theorem shortest_nodup (g : GridSystem) (s t : ℤ × ℤ) (l : List (ℤ × ℤ))
    (hl : PathFromTo g s t l)
    (hmin : ∀ l', PathFromTo g s t l' → l.length ≤ l'.length) :
    l.Nodup := by
  by_contra h
  obtain ⟨a, l1, l2, l3, hsp⟩ := not_nodup_split l h
  rw [hsp] at hl
  have hshort := pathFromTo_splice g s t a l1 l2 l3 hl
  have hle := hmin _ hshort
  rw [hsp] at hle
  simp only [List.length_append, List.length_cons] at hle
  omega

/-!
### Came-from chain lemmas
-/

theorem cameRealL_path (g : GridSystem) (cf : List (ℤ × ℤ × ℚ))
    (start : ℤ × ℤ) {c : ℤ × ℤ} {k : ℕ} {l : List (ℤ × ℤ)}
    (h : CameRealL g cf start c k l) :
    PathFromTo g start c l ∧ l.length = k + 1 := by
  induction h with
  | refl h0 hnone =>
    refine ⟨⟨⟨by simp, ?_, List.chain'_singleton start⟩, by simp, by simp⟩,
      by simp⟩
    intro d hd
    have hds : start = d := by simpa using hd
    rw [← hds]
    exact h0
  | step a hp ha hc hv hw hcf ih =>
    rename_i c0 c' k0 l0
    refine ⟨pathFromTo_snoc g start c0 c' l0 ih.1 ⟨⟨a, ha, hc⟩, hv, hw⟩, ?_⟩
    rw [List.length_append, ih.2]
    simp

theorem cameRealL_mono (g : GridSystem) (cf cf' : List (ℤ × ℤ × ℚ))
    (start : ℤ × ℤ) {c : ℤ × ℤ} {k : ℕ} {l : List (ℤ × ℤ)}
    (h : CameRealL g cf start c k l)
    (hpres : ∀ p ∈ l, cameLookup cf' (g.getFlatIndex p.1 p.2) =
      cameLookup cf (g.getFlatIndex p.1 p.2)) :
    CameRealL g cf' start c k l := by
  induction h with
  | refl h0 hnone =>
    exact CameRealL.refl h0 (by rw [hpres start (by simp)]; exact hnone)
  | step a hp ha hc hv hw hcf ih =>
    rename_i c0 c' k0 l0
    refine CameRealL.step a (ih ?_) ha hc hv hw ?_
    · intro p hpmem
      exact hpres p (List.mem_append_left _ hpmem)
    · rw [hpres c' (List.mem_append_right _ (by simp))]
      exact hcf

theorem cameLookup_some_key_mem (cf : List (ℤ × ℤ × ℚ)) (k : ℤ)
    (v : ℤ × ℚ) (h : cameLookup cf k = some v) :
    k ∈ cf.map (fun e => e.1) := by
  unfold cameLookup mapLookup at h
  cases hf : cf.find? (fun e => decide (e.1 = k)) with
  | none => rw [hf] at h; exact Option.noConfusion h
  | some e =>
    have hmem := List.mem_of_find?_eq_some hf
    have hpred := List.find?_some hf
    have hek : e.1 = k := by simpa using hpred
    rw [← hek]
    exact List.mem_map_of_mem _ hmem

theorem cameRealL_keys (g : GridSystem) (cf : List (ℤ × ℤ × ℚ))
    (start : ℤ × ℤ) {c : ℤ × ℤ} {k : ℕ} {l : List (ℤ × ℤ)}
    (h : CameRealL g cf start c k l)
    (hnd : (l.map (fun p => g.getFlatIndex p.1 p.2)).Nodup) :
    ∃ keys : List ℤ,
      keys.Sublist (l.map (fun p => g.getFlatIndex p.1 p.2)) ∧
      keys.length = k ∧ keys ⊆ cf.map (fun e => e.1) := by
  induction h with
  | refl h0 hnone => exact ⟨[], List.nil_sublist _, rfl, by simp⟩
  | step a hp ha hc hv hw hcf ih =>
    rename_i c0 c' k0 l0
    have hmap : (l0 ++ [c']).map (fun p => g.getFlatIndex p.1 p.2) =
        l0.map (fun p => g.getFlatIndex p.1 p.2) ++
          [g.getFlatIndex c'.1 c'.2] := by simp
    rw [hmap] at hnd
    have hnd0 : (l0.map (fun p => g.getFlatIndex p.1 p.2)).Nodup :=
      (List.Nodup.of_append_left hnd)
    obtain ⟨keys, hsub, hlen, hmem⟩ := ih hnd0
    refine ⟨keys ++ [g.getFlatIndex c'.1 c'.2], ?_, by simp [hlen], ?_⟩
    · rw [hmap]
      exact List.Sublist.append hsub (List.Sublist.refl _)
    · intro i hi
      rcases List.mem_append.mp hi with hi | hi
      · exact hmem hi
      · have : i = g.getFlatIndex c'.1 c'.2 := by simpa using hi
        rw [this]
        exact cameLookup_some_key_mem cf _ _ hcf

theorem cameRealL_le_cf_length (g : GridSystem) (cf : List (ℤ × ℤ × ℚ))
    (start : ℤ × ℤ) {c : ℤ × ℤ} {k : ℕ} {l : List (ℤ × ℤ)}
    (h : CameRealL g cf start c k l)
    (hnd : (l.map (fun p => g.getFlatIndex p.1 p.2)).Nodup) :
    k ≤ cf.length := by
  obtain ⟨keys, hsub, hlen, hmem⟩ := cameRealL_keys g cf start h hnd
  have hknd : keys.Nodup := List.Nodup.sublist hsub hnd
  have hsp : keys.Subperm (cf.map (fun e => e.1)) :=
    List.subperm_of_subset hknd hmem
  have := hsp.length_le
  rw [hlen, List.length_map] at this
  exact this

theorem cameRealL_getLast_mem (g : GridSystem) (cf : List (ℤ × ℤ × ℚ))
    (start : ℤ × ℤ) {c : ℤ × ℤ} {k : ℕ} {l : List (ℤ × ℤ)}
    (h : CameRealL g cf start c k l) :
    c ∈ l ∧ l = l.dropLast ++ [c] := by
  have hp := (cameRealL_path g cf start h).1
  have hne : l ≠ [] := hp.1.1
  have hlast := hp.2.2
  have h1 := List.getLast?_eq_getLast l hne
  rw [hlast] at h1
  have h2 : l.getLast hne = c := (Option.some_injective _ h1).symm
  have h3 : l.dropLast ++ [c] = l := by
    rw [← h2]
    exact List.dropLast_append_getLast hne
  constructor
  · rw [← h3]
    exact List.mem_append_right _ (by simp)
  · exact h3.symm

theorem reconstructWalk_chain (g : GridSystem) (cf : List (ℤ × ℤ × ℚ))
    (start : ℤ × ℤ) {c : ℤ × ℤ} {k : ℕ} {l : List (ℤ × ℤ)}
    (h : CameRealL g cf start c k l)
    (hnd : (l.map (fun p => g.getFlatIndex p.1 p.2)).Nodup) :
    ∀ (fuel : ℕ), k ≤ fuel → ∀ (pol val : ℤ → ℚ),
      (∀ i, (¬ ∃ p ∈ l.dropLast, i = g.getFlatIndex p.1 p.2) →
        (reconstructWalk cf fuel (g.getFlatIndex c.1 c.2) pol val).1 i = pol i ∧
        (reconstructWalk cf fuel (g.getFlatIndex c.1 c.2) pol val).2 i
          = val i) ∧
      (∀ p ∈ l.dropLast,
        (reconstructWalk cf fuel (g.getFlatIndex c.1 c.2) pol val).2
          (g.getFlatIndex p.1 p.2) = 1) ∧
      List.Chain' (fun p q => ∃ a, a < 4 ∧
        q = (p.1 + (actionDir a).1, p.2 + (actionDir a).2) ∧
        (reconstructWalk cf fuel (g.getFlatIndex c.1 c.2) pol val).1
          (g.getFlatIndex p.1 p.2) = actionAngle a) l := by
  induction h with
  | refl h0 hnone =>
    intro fuel _ pol val
    have hwalk : reconstructWalk cf fuel
        (g.getFlatIndex start.1 start.2) pol val = (pol, val) := by
      cases fuel with
      | zero => rfl
      | succ f =>
        unfold reconstructWalk
        rw [hnone]
    rw [hwalk]
    exact ⟨fun i _ => ⟨rfl, rfl⟩, fun p hp => absurd hp (by simp),
      List.chain'_singleton start⟩
  | step a hp ha hc hv hw hcf ih =>
    rename_i c0 c' k0 l0
    intro fuel hfuel pol val
    cases fuel with
    | zero => omega
    | succ f =>
      have hmap : (l0 ++ [c']).map (fun p => g.getFlatIndex p.1 p.2) =
          l0.map (fun p => g.getFlatIndex p.1 p.2) ++
            [g.getFlatIndex c'.1 c'.2] := by simp
      rw [hmap] at hnd
      have hnd0 : (l0.map (fun p => g.getFlatIndex p.1 p.2)).Nodup :=
        List.Nodup.of_append_left hnd
      have hc0mem := (cameRealL_getLast_mem g cf start hp).1
      have hc0split := (cameRealL_getLast_mem g cf start hp).2
      -- the index of c0 does not occur among the earlier chain cells
      have hc0notdrop : ¬ ∃ p ∈ l0.dropLast,
          g.getFlatIndex c0.1 c0.2 = g.getFlatIndex p.1 p.2 := by
        intro ⟨p, hpmem, hpeq⟩
        have hnd1 : ((l0.dropLast ++ [c0]).map
            (fun p => g.getFlatIndex p.1 p.2)).Nodup := by
          rw [← hc0split]
          exact hnd0
        rw [List.map_append] at hnd1
        have hnotin := (List.nodup_append.mp hnd1).2.2
        exact hnotin (List.mem_map_of_mem _ hpmem) (by simp [hpeq])
      have hwalk : reconstructWalk cf (f + 1)
          (g.getFlatIndex c'.1 c'.2) pol val =
          reconstructWalk cf f (g.getFlatIndex c0.1 c0.2)
            (fun i => if i = g.getFlatIndex c0.1 c0.2 then actionAngle a
              else pol i)
            (fun i => if i = g.getFlatIndex c0.1 c0.2 then 1 else val i) := by
        rw [show reconstructWalk cf (f + 1)
            (g.getFlatIndex c'.1 c'.2) pol val =
            (match cameLookup cf (g.getFlatIndex c'.1 c'.2) with
             | none => (pol, val)
             | some pr => reconstructWalk cf f pr.1
                 (fun i => if i = pr.1 then pr.2 else pol i)
                 (fun i => if i = pr.1 then 1 else val i)) from rfl]
        rw [hcf]
      set pol1 : ℤ → ℚ :=
        fun i => if i = g.getFlatIndex c0.1 c0.2 then actionAngle a
          else pol i with hpol1
      set val1 : ℤ → ℚ :=
        fun i => if i = g.getFlatIndex c0.1 c0.2 then 1 else val i with hval1
      have hf0 : k0 ≤ f := by omega
      obtain ⟨huntouched, hmarks, hchain⟩ := ih hnd0 f hf0 pol1 val1
      have hdropconcat : (l0 ++ [c']).dropLast = l0 := by
        simp
      rw [hwalk, hdropconcat]
      have hmem_split : ∀ p ∈ l0, p ∈ l0.dropLast ∨ p = c0 := by
        intro p hpm
        rw [hc0split] at hpm
        rcases List.mem_append.mp hpm with hpm | hpm
        · exact Or.inl hpm
        · exact Or.inr (by simpa using hpm)
      refine ⟨?_, ?_, ?_⟩
      · -- untouched cells
        intro i hi
        have hidrop : ¬ ∃ p ∈ l0.dropLast, i = g.getFlatIndex p.1 p.2 := by
          intro ⟨p, hpmem, hpeq⟩
          exact hi ⟨p, List.mem_of_mem_dropLast hpmem, hpeq⟩
        have hic0 : i ≠ g.getFlatIndex c0.1 c0.2 := by
          intro hh
          exact hi ⟨c0, hc0mem, hh⟩
        obtain ⟨h1, h2⟩ := huntouched i hidrop
        refine ⟨?_, ?_⟩
        · rw [h1, hpol1]
          simp [hic0]
        · rw [h2, hval1]
          simp [hic0]
      · -- marks
        intro p hpm
        rcases hmem_split p hpm with hpm' | hpm'
        · exact hmarks p hpm'
        · rw [hpm']
          have := (huntouched (g.getFlatIndex c0.1 c0.2) hc0notdrop).2
          rw [this, hval1]
          simp
      · -- the policy chain
        have hpolc0 : (reconstructWalk cf f (g.getFlatIndex c0.1 c0.2)
            pol1 val1).1 (g.getFlatIndex c0.1 c0.2) = actionAngle a := by
          have := (huntouched (g.getFlatIndex c0.1 c0.2) hc0notdrop).1
          rw [this, hpol1]
          simp
        have hlink : ∀ x ∈ l0.getLast?, ∀ y ∈ ([c'] : List (ℤ × ℤ)).head?,
            (∃ b, b < 4 ∧ y = (x.1 + (actionDir b).1, x.2 + (actionDir b).2) ∧
              (reconstructWalk cf f (g.getFlatIndex c0.1 c0.2) pol1 val1).1
                (g.getFlatIndex x.1 x.2) = actionAngle b) := by
          intro x hx y hy
          have hxl : l0.getLast? = some c0 :=
            (cameRealL_path g cf start hp).1.2.2
          rw [hxl] at hx
          have hxc : c0 = x := by simpa using hx
          have hyc : c' = y := by simpa using hy
          rw [← hxc, ← hyc]
          exact ⟨a, ha, hc, hpolc0⟩
        exact List.chain'_append.mpr ⟨hchain, List.chain'_singleton c', hlink⟩

/-!
### The frontier cover lemma and pop optimality
-/

theorem goalsOf_mem (g : GridSystem) (c : ℤ × ℤ) (h : c ∈ goalsOf g) :
    g.isValid c.1 c.2 ∧ g.getCell c.1 c.2 = CellType.Goal := by
  unfold goalsOf at h
  rw [List.mem_flatMap] at h
  obtain ⟨y, hy, hc2⟩ := h
  rw [List.mem_filterMap] at hc2
  obtain ⟨x, hx, hxc⟩ := hc2
  by_cases hg : g.getCell (x : ℤ) (y : ℤ) = CellType.Goal
  · rw [if_pos hg] at hxc
    have hcc : ((x : ℤ), (y : ℤ)) = c := by simpa using hxc
    have hxw : x < g.width := List.mem_range.mp hx
    have hyh : y < g.height := List.mem_range.mp hy
    have hval : g.isValid (x : ℤ) (y : ℤ) :=
      ⟨by positivity, by exact_mod_cast hxw, by positivity,
        by exact_mod_cast hyh⟩
    rw [← hcc]
    exact ⟨hval, hg⟩
  · rw [if_neg hg] at hxc
    exact Option.noConfusion hxc

theorem pathFromTo_target_mem (g : GridSystem) (s t : ℤ × ℤ)
    (l : List (ℤ × ℤ)) (hl : PathFromTo g s t l) : t ∈ l := by
  have hne : l ≠ [] := hl.1.1
  have h1 := List.getLast?_eq_getLast l hne
  rw [hl.2.2] at h1
  have h2 : l.getLast hne = t := (Option.some_injective _ h1).symm
  rw [← h2]
  exact List.getLast_mem hne

theorem astar_cover_aux (g : GridSystem) (goal start : ℤ × ℤ)
    (openList : List ANode) (closed : List ℤ) (cf : List (ℤ × ℤ × ℚ))
    (val : ℤ → ℚ)
    (inv : AStarInv g start goal openList closed cf val) :
    ∀ (l : List (ℤ × ℤ)) (u : ℤ × ℤ), PathFromTo g start u l →
      g.getFlatIndex u.1 u.2 ∉ closed →
      ∃ n ∈ openList, n.g + manhQ n.x n.y goal.1 goal.2 ≤
        ((l.length : ℚ) - 1) + manhQ u.1 u.2 goal.1 goal.2 := by
  intro l
  induction l using List.reverseRecOn with
  | nil =>
    intro u hu _
    exact absurd rfl hu.1.1
  | append_singleton l0 last ih =>
    intro u hpath hu
    rcases pathFromTo_unsnoc g start u _ hpath with ⟨hls, hus⟩ |
      ⟨l1, v, heq, hpath0, hstep⟩
    · -- the path is the single cell [start]
      rcases inv.startCover with ⟨n, hn, hnx, hny, hng⟩ | hclosed
      · refine ⟨n, hn, ?_⟩
        have hlen : (l0 ++ [last]).length = 1 := by rw [hls]; rfl
        rw [hlen, hng, hnx, hny, hus]
        norm_num
      · rw [hus] at hu
        exact absurd hclosed hu
    · -- the path ends with a step v → u
      have hl1 : l1 = l0 ∧ last = u := by
        have h1 := congrArg List.dropLast heq
        rw [List.dropLast_concat, List.dropLast_concat] at h1
        have h2 := congrArg (fun ll => List.getLast? ll) heq
        simp only [List.getLast?_concat] at h2
        exact ⟨h1.symm, Option.some_injective _ h2⟩
      obtain ⟨hl10, hlastu⟩ := hl1
      rw [hl10] at hpath0
      have hlen0 : 1 ≤ l0.length := List.length_pos.mpr hpath0.1.1
      by_cases hvclosed : g.getFlatIndex v.1 v.2 ∈ closed
      · -- the predecessor is closed: use its frontier property
        obtain ⟨c, k, hcv, hcvalid, hcdist, hcfront⟩ :=
          inv.closedFrontier _ hvclosed
        have hvvalid : g.isValid v.1 v.2 := by
          apply pathFromTo_valid_mem g start v l0 hpath0
          exact pathFromTo_target_mem g start v l0 hpath0
        have hceq : c = v := by
          obtain ⟨h1, h2⟩ := flat_inj g c.1 c.2 v.1 v.2 hcvalid hvvalid hcv
          exact Prod.ext h1 h2
        rw [hceq] at hcdist hcfront
        have hkle : k ≤ l0.length - 1 :=
          isDist_le g start v k (l0.length - 1) hcdist
            (reachesInN_of_path g start v l0 hpath0)
        obtain ⟨⟨a, ha, hueq⟩, huvalid, hunw⟩ := hstep
        rcases hcfront a ha u hueq huvalid hunw with hclosed' | ⟨n, hn, hnx, hny, hng⟩
        · exact absurd hclosed' hu
        · refine ⟨n, hn, ?_⟩
          rw [hnx, hny, hlastu]
          have hcast : (k : ℚ) ≤ (l0.length : ℚ) - 1 := by
            have hk2 : (k : ℚ) ≤ ((l0.length - 1 : ℕ) : ℚ) := by
              exact_mod_cast hkle
            rw [Nat.cast_sub hlen0] at hk2
            simpa using hk2
          have hlen : ((l0 ++ [u]).length : ℚ) = (l0.length : ℚ) + 1 := by
            rw [List.length_append, List.length_singleton]
            push_cast
            ring
          rw [hlen]
          have hsum := add_le_add_right hng (manhQ u.1 u.2 goal.1 goal.2)
          refine le_trans hsum ?_
          linarith
      · -- the predecessor is not closed: recurse on the shorter path
        obtain ⟨n, hn, hb⟩ := ih v hpath0 hvclosed
        refine ⟨n, hn, ?_⟩
        have htri : manhQ v.1 v.2 goal.1 goal.2 ≤
            manhQ v.1 v.2 u.1 u.2 + manhQ u.1 u.2 goal.1 goal.2 :=
          manhQ_triangle v.1 v.2 u.1 u.2 goal.1 goal.2
        have hstep1 : manhQ v.1 v.2 u.1 u.2 ≤ 1 := stepOk_manh g v u hstep
        have hlen : ((l0 ++ [u]).length : ℚ) = (l0.length : ℚ) + 1 := by
          rw [List.length_append, List.length_singleton]
          push_cast
          ring
        rw [hlastu, hlen]
        linarith

theorem astar_cover (g : GridSystem) (goal start : ℤ × ℤ)
    (openList : List ANode) (closed : List ℤ) (cf : List (ℤ × ℤ × ℚ))
    (val : ℤ → ℚ)
    (inv : AStarInv g start goal openList closed cf val)
    (u : ℤ × ℤ) (ku : ℕ) (hdist : IsDist g start u ku)
    (hu : g.getFlatIndex u.1 u.2 ∉ closed) :
    ∃ n ∈ openList, n.g + manhQ n.x n.y goal.1 goal.2 ≤
      (ku : ℚ) + manhQ u.1 u.2 goal.1 goal.2 := by
  obtain ⟨⟨l, hl, hlen⟩, _⟩ := hdist
  obtain ⟨n, hn, hb⟩ := astar_cover_aux g goal start openList closed cf val
    inv l u hl hu
  refine ⟨n, hn, ?_⟩
  have hcast : ((l.length : ℚ) - 1) = (ku : ℚ) := by
    rw [hlen]
    push_cast
    ring
  rw [hcast] at hb
  exact hb

theorem astar_pop_optimal (g : GridSystem) (goal start : ℤ × ℤ)
    (openList : List ANode) (closed : List ℤ) (cf : List (ℤ × ℤ × ℚ))
    (val : ℤ → ℚ)
    (inv : AStarInv g start goal openList closed cf val)
    (cur : ANode) (rest : List ANode)
    (hs : sortByF openList = cur :: rest) :
    ∃ kc : ℕ, cur.g = (kc : ℚ) ∧ IsDist g start (cur.x, cur.y) kc := by
  have hcmem : cur ∈ openList := (sortByF_mem cur openList).mp
    (by rw [hs]; exact List.mem_cons_self cur rest)
  obtain ⟨kr, lr, hg, hchain, _, _⟩ := inv.openPaths cur hcmem
  have hp := cameRealL_path g cf start hchain
  have hreach : ReachesP g start (cur.x, cur.y) := ⟨lr, hp.1⟩
  obtain ⟨kd, hkd⟩ := dist_exists g start (cur.x, cur.y) hreach
  have h1 : kd ≤ kr := isDist_le g start (cur.x, cur.y) kd kr hkd
    ⟨lr, hp.1, hp.2⟩
  obtain ⟨n, hn, hb⟩ := astar_cover g goal start openList closed cf val inv
    (cur.x, cur.y) kd hkd (inv.openDisjoint cur hcmem)
  have hmin := sortByF_head_min openList cur rest hs n hn
  have hfc := inv.fDef cur hcmem
  have hfn := inv.fDef n hn
  have hgle : cur.g ≤ (kd : ℚ) := by
    rw [hfc, hfn] at hmin
    have hmu : manhQ cur.x cur.y goal.1 goal.2 =
        manhQ ((cur.x, cur.y) : ℤ × ℤ).1 ((cur.x, cur.y) : ℤ × ℤ).2
          goal.1 goal.2 := rfl
    rw [hmu] at hmin
    linarith [hb, hmin]
  have hkrkd : kr = kd := by
    have h2 : (kr : ℚ) ≤ (kd : ℚ) := by rw [← hg]; exact hgle
    have h3 : kr ≤ kd := by exact_mod_cast h2
    omega
  exact ⟨kd, by rw [hg, hkrkd], hkd⟩

/-!
### Relaxation bookkeeping
-/

theorem findNode_none (l : List ANode) (nx ny : ℤ)
    (h : findNode l nx ny = none) :
    ∀ n ∈ l, ¬ (n.x = nx ∧ n.y = ny) := by
  unfold findNode at h
  rw [List.find?_eq_none] at h
  intro n hn hc
  exact h n hn (by simp [hc.1, hc.2])

theorem findNode_some (l : List ANode) (nx ny : ℤ) (ex : ANode)
    (h : findNode l nx ny = some ex) :
    ex ∈ l ∧ ex.x = nx ∧ ex.y = ny := by
  unfold findNode at h
  refine ⟨List.mem_of_find?_eq_some h, ?_⟩
  simpa using List.find?_some h

theorem updateNode_map_pos (nx ny : ℤ) (ng nf : ℚ) (l : List ANode) :
    (updateNode nx ny ng nf l).map (fun n => (n.x, n.y)) =
      l.map (fun n => (n.x, n.y)) := by
  induction l with
  | nil => rfl
  | cons e r ih =>
    unfold updateNode
    by_cases he : e.x = nx ∧ e.y = ny
    · rw [if_pos he]
      simp [he.1, he.2]
    · rw [if_neg he]
      simp only [List.map_cons, ih]

theorem nodupPos_inj (l : List ANode)
    (hnd : (l.map (fun n => (n.x, n.y))).Nodup)
    (n m : ANode) (hn : n ∈ l) (hm : m ∈ l) (hx : n.x = m.x)
    (hy : n.y = m.y) : n = m := by
  exact List.inj_on_of_nodup_map hnd hn hm (by rw [hx, hy])

theorem updateNode_mem_nodup (nx ny : ℤ) (ng nf : ℚ) (l : List ANode) :
    (l.map (fun n => (n.x, n.y))).Nodup →
    ∀ m ∈ updateNode nx ny ng nf l,
      (m.x = nx ∧ m.y = ny ∧ m.g = ng ∧ m.f = nf) ∨
        (m ∈ l ∧ ¬ (m.x = nx ∧ m.y = ny)) := by
  induction l with
  | nil => intro _ m hm; exact absurd hm (List.not_mem_nil m)
  | cons e r ih =>
    intro hnd m hm
    rw [List.map_cons, List.nodup_cons] at hnd
    unfold updateNode at hm
    by_cases he : e.x = nx ∧ e.y = ny
    · rw [if_pos he] at hm
      rcases List.mem_cons.mp hm with hm | hm
      · left
        rw [hm]
        exact ⟨rfl, rfl, rfl, rfl⟩
      · right
        refine ⟨List.mem_cons_of_mem e hm, ?_⟩
        intro hc
        have hmm : (m.x, m.y) ∈ r.map (fun n => (n.x, n.y)) :=
          List.mem_map_of_mem _ hm
        have hpe : (e.x, e.y) = (m.x, m.y) := by
          rw [he.1, he.2, hc.1, hc.2]
        exact hnd.1 (by rw [hpe]; exact hmm)
    · rw [if_neg he] at hm
      rcases List.mem_cons.mp hm with hm | hm
      · right
        refine ⟨by rw [hm]; exact List.mem_cons_self e r, ?_⟩
        rw [hm]
        exact he
      · rcases ih hnd.2 m hm with h1 | h1
        · exact Or.inl h1
        · exact Or.inr ⟨List.mem_cons_of_mem e h1.1, h1.2⟩

theorem updateNode_keep (nx ny : ℤ) (ng nf : ℚ) (l : List ANode) (n : ANode)
    (hn : n ∈ l) (hpos : ¬ (n.x = nx ∧ n.y = ny)) :
    n ∈ updateNode nx ny ng nf l := by
  induction l with
  | nil => exact absurd hn (List.not_mem_nil n)
  | cons e r ih =>
    unfold updateNode
    by_cases he : e.x = nx ∧ e.y = ny
    · rw [if_pos he]
      rcases List.mem_cons.mp hn with hn | hn
      · exact absurd (show n.x = nx ∧ n.y = ny by rw [hn]; exact he) hpos
      · exact List.mem_cons_of_mem _ hn
    · rw [if_neg he]
      rcases List.mem_cons.mp hn with hn | hn
      · rw [hn]
        exact List.mem_cons_self e _
      · exact List.mem_cons_of_mem e (ih hn)

theorem updateNode_new_mem (nx ny : ℤ) (ng nf : ℚ) (l : List ANode)
    (ex : ANode) (hex : ex ∈ l) (hx : ex.x = nx) (hy : ex.y = ny) :
    (⟨nx, ny, ng, nf⟩ : ANode) ∈ updateNode nx ny ng nf l := by
  induction l with
  | nil => exact absurd hex (List.not_mem_nil ex)
  | cons e r ih =>
    unfold updateNode
    by_cases he : e.x = nx ∧ e.y = ny
    · rw [if_pos he]
      exact List.mem_cons_self _ _
    · rw [if_neg he]
      rcases List.mem_cons.mp hex with hh | hh
      · exact absurd (show e.x = nx ∧ e.y = ny by rw [← hh]; exact ⟨hx, hy⟩) he
      · exact List.mem_cons_of_mem e (ih hh)

theorem cameLookup_cameSet_self (cf : List (ℤ × ℤ × ℚ)) (k : ℤ)
    (v : ℤ × ℚ) : cameLookup (cameSet cf k v) k = some v :=
  mapLookup_upsert_self cf k v

theorem cameLookup_cameSet_ne (cf : List (ℤ × ℤ × ℚ)) (k j : ℤ)
    (v : ℤ × ℚ) (h : j ≠ k) :
    cameLookup (cameSet cf k v) j = cameLookup cf j :=
  mapLookup_upsert_ne cf k j v h

theorem flat_ne_of_pos_ne (g : GridSystem) (x y x' y' : ℤ)
    (hv : g.isValid x y) (hv' : g.isValid x' y')
    (hne : ¬ (x = x' ∧ y = y')) :
    g.getFlatIndex x y ≠ g.getFlatIndex x' y' := by
  intro h
  exact hne (flat_inj g x y x' y' hv hv' h)

theorem relax_step (g : GridSystem) (start goal : ℤ × ℤ) (cur : ANode)
    (kc : ℕ) (closedE : List ℤ)
    (st : List ANode × List (ℤ × ℤ × ℚ) × (ℤ → ℚ)) (a : ℕ) (ha : a < 4)
    (pre : RelaxPre g start goal cur kc closedE st.1 st.2.1 st.2.2) :
    RelaxPre g start goal cur kc closedE
      (astarRelax g goal cur closedE st a).1
      (astarRelax g goal cur closedE st a).2.1
      (astarRelax g goal cur closedE st a).2.2 ∧
    (∀ n ∈ st.1, ∃ n' ∈ (astarRelax g goal cur closedE st a).1,
      n'.x = n.x ∧ n'.y = n.y ∧ n'.g ≤ n.g) ∧
    (∀ c' : ℤ × ℤ,
      c' = (cur.x + (actionDir a).1, cur.y + (actionDir a).2) →
      g.isValid c'.1 c'.2 → g.getCell c'.1 c'.2 ≠ CellType.Wall →
      (g.getFlatIndex c'.1 c'.2 ∈ closedE ∨
        ∃ n ∈ (astarRelax g goal cur closedE st a).1,
          n.x = c'.1 ∧ n.y = c'.2 ∧ n.g ≤ (kc : ℚ) + 1)) := by
  unfold astarRelax
  by_cases h1 : ¬ g.isValid (cur.x + (actionDir a).1) (cur.y + (actionDir a).2)
  · rw [if_pos h1]
    refine ⟨pre, fun n hn => ⟨n, hn, rfl, rfl, le_refl n.g⟩, ?_⟩
    intro c' hc' hval _
    rw [hc'] at hval
    exact absurd hval h1
  · rw [if_neg h1]
    by_cases h2 : g.getCell (cur.x + (actionDir a).1)
        (cur.y + (actionDir a).2) = CellType.Wall
    · rw [if_pos h2]
      refine ⟨pre, fun n hn => ⟨n, hn, rfl, rfl, le_refl n.g⟩, ?_⟩
      intro c' hc' _ hnw
      rw [hc'] at hnw
      exact absurd h2 hnw
    · rw [if_neg h2]
      by_cases h3 : g.getFlatIndex (cur.x + (actionDir a).1)
          (cur.y + (actionDir a).2) ∈ closedE
      · rw [if_pos h3]
        refine ⟨pre, fun n hn => ⟨n, hn, rfl, rfl, le_refl n.g⟩, ?_⟩
        intro c' hc' _ _
        left
        rw [hc']
        exact h3
      · rw [if_neg h3]
        dsimp only
        have hvnb : g.isValid (cur.x + (actionDir a).1)
            (cur.y + (actionDir a).2) := not_not.mp h1
        obtain ⟨lc, hlc, hlcnd, hlcE⟩ := pre.curChain
        have hcurlast := cameRealL_getLast_mem g st.2.1 start hlc
        have hpres : ∀ (c0 : ℤ × ℤ) (k : ℕ) (l : List (ℤ × ℤ)),
            CameRealL g st.2.1 start c0 k l →
            (∀ p ∈ l, g.getFlatIndex p.1 p.2 ≠
              g.getFlatIndex (cur.x + (actionDir a).1)
                (cur.y + (actionDir a).2)) →
            CameRealL g
              (cameSet st.2.1
                (g.getFlatIndex (cur.x + (actionDir a).1)
                  (cur.y + (actionDir a).2))
                (g.getFlatIndex cur.x cur.y, actionAngle a))
              start c0 k l := by
          intro c0 k l hch hne
          refine cameRealL_mono g st.2.1 _ start hch ?_
          intro p hp
          exact cameLookup_cameSet_ne _ _ _ _ (hne p hp)
        have hpresN : ∀ (c0 : ℤ × ℤ) (k : ℕ) (l : List (ℤ × ℤ)),
            CameRealL g st.2.1 start c0 k l →
            (∀ p ∈ l.dropLast, g.getFlatIndex p.1 p.2 ∈ closedE) →
            g.getFlatIndex c0.1 c0.2 ≠
              g.getFlatIndex (cur.x + (actionDir a).1)
                (cur.y + (actionDir a).2) →
            CameRealL g
              (cameSet st.2.1
                (g.getFlatIndex (cur.x + (actionDir a).1)
                  (cur.y + (actionDir a).2))
                (g.getFlatIndex cur.x cur.y, actionAngle a))
              start c0 k l := by
          intro c0 k l hch hd h0
          refine hpres c0 k l hch ?_
          intro p hp
          have hsplit := (cameRealL_getLast_mem g st.2.1 start hch).2
          rw [hsplit] at hp
          rcases List.mem_append.mp hp with hp | hp
          · intro heq
            exact h3 (heq ▸ hd p hp)
          · have hpc : p = c0 := by simpa using hp
            rw [hpc]
            exact h0
        have hcIdxE : g.getFlatIndex cur.x cur.y ∈ closedE :=
          hlcE (cur.x, cur.y) hcurlast.1
        have hcne : g.getFlatIndex cur.x cur.y ≠
            g.getFlatIndex (cur.x + (actionDir a).1)
              (cur.y + (actionDir a).2) :=
          fun heq => h3 (heq ▸ hcIdxE)
        have hlc' : CameRealL g
            (cameSet st.2.1
              (g.getFlatIndex (cur.x + (actionDir a).1)
                (cur.y + (actionDir a).2))
              (g.getFlatIndex cur.x cur.y, actionAngle a))
            start (cur.x, cur.y) kc lc :=
          hpresN (cur.x, cur.y) kc lc hlc
            (fun p hp => hlcE p (List.mem_of_mem_dropLast hp)) hcne
        have hnew : CameRealL g
            (cameSet st.2.1
              (g.getFlatIndex (cur.x + (actionDir a).1)
                (cur.y + (actionDir a).2))
              (g.getFlatIndex cur.x cur.y, actionAngle a))
            start (cur.x + (actionDir a).1, cur.y + (actionDir a).2)
            (kc + 1)
            (lc ++ [(cur.x + (actionDir a).1, cur.y + (actionDir a).2)]) := by
          refine CameRealL.step a hlc' ha rfl hvnb h2 ?_
          exact cameLookup_cameSet_self _ _ _
        have hnewnd : ((lc ++ [(cur.x + (actionDir a).1,
            cur.y + (actionDir a).2)]).map
            (fun c => g.getFlatIndex c.1 c.2)).Nodup := by
          rw [List.map_append]
          refine List.Nodup.append hlcnd (by simp) ?_
          intro i hi hi2
          have hii : i = g.getFlatIndex (cur.x + (actionDir a).1)
              (cur.y + (actionDir a).2) := by simpa using hi2
          rw [hii] at hi
          obtain ⟨p, hp, hpe⟩ := List.mem_map.mp hi
          exact h3 (hpe ▸ hlcE p hp)
        cases hfind : findNode st.1 (cur.x + (actionDir a).1)
            (cur.y + (actionDir a).2) with
        | none =>
          dsimp only
          have hnomem := findNode_none st.1 _ _ hfind
          refine ⟨⟨?_, ?_, ?_, ?_, ?_, ?_, ?_, pre.startClosed, pre.curG,
            pre.curValid, ⟨lc, hlc', hlcnd, hlcE⟩⟩, ?_, ?_⟩
          · intro n hn
            rcases List.mem_append.mp hn with hn | hn
            · obtain ⟨k, l, hg2, hch, hnd, hdrop⟩ := pre.openPaths n hn
              refine ⟨k, l, hg2, ?_, hnd, hdrop⟩
              refine hpresN (n.x, n.y) k l hch hdrop ?_
              exact flat_ne_of_pos_ne g n.x n.y _ _
                (pre.openValid n hn) hvnb (hnomem n hn)
            · have hne : n = ⟨cur.x + (actionDir a).1,
                  cur.y + (actionDir a).2, cur.g + 1,
                  cur.g + 1 + manhQ (cur.x + (actionDir a).1)
                    (cur.y + (actionDir a).2) goal.1 goal.2⟩ := by
                simpa using hn
              refine ⟨kc + 1, lc ++ [(cur.x + (actionDir a).1,
                cur.y + (actionDir a).2)], ?_, ?_, hnewnd, ?_⟩
              · rw [hne]
                show cur.g + 1 = ((kc + 1 : ℕ) : ℚ)
                rw [pre.curG]
                push_cast
                ring
              · rw [hne]
                exact hnew
              · rw [List.dropLast_concat]
                exact fun c hc => hlcE c hc
          · intro n hn
            rcases List.mem_append.mp hn with hn | hn
            · exact pre.fDef n hn
            · have hne : n = ⟨cur.x + (actionDir a).1,
                  cur.y + (actionDir a).2, cur.g + 1,
                  cur.g + 1 + manhQ (cur.x + (actionDir a).1)
                    (cur.y + (actionDir a).2) goal.1 goal.2⟩ := by
                simpa using hn
              rw [hne]
          · rw [cameLookup_cameSet_ne]
            · exact pre.noStartCf
            · exact fun heq => h3 (heq ▸ pre.startClosed)
          · intro n hn
            rcases List.mem_append.mp hn with hn | hn
            · exact pre.openValid n hn
            · have hne : n = ⟨cur.x + (actionDir a).1,
                  cur.y + (actionDir a).2, cur.g + 1,
                  cur.g + 1 + manhQ (cur.x + (actionDir a).1)
                    (cur.y + (actionDir a).2) goal.1 goal.2⟩ := by
                simpa using hn
              rw [hne]
              exact hvnb
          · rw [List.map_append]
            refine List.Nodup.append pre.openNodup (by simp) ?_
            intro p hp hp2
            have hpp : p = (cur.x + (actionDir a).1,
                cur.y + (actionDir a).2) := by simpa using hp2
            obtain ⟨n, hn, hpe⟩ := List.mem_map.mp hp
            rw [hpp] at hpe
            exact hnomem n hn ⟨(Prod.ext_iff.mp hpe).1, (Prod.ext_iff.mp hpe).2⟩
          · intro n hn
            rcases List.mem_append.mp hn with hn | hn
            · exact pre.openDisjoint n hn
            · have hne : n = ⟨cur.x + (actionDir a).1,
                  cur.y + (actionDir a).2, cur.g + 1,
                  cur.g + 1 + manhQ (cur.x + (actionDir a).1)
                    (cur.y + (actionDir a).2) goal.1 goal.2⟩ := by
                simpa using hn
              rw [hne]
              exact h3
          · intro idx
            by_cases hidx : idx = g.getFlatIndex (cur.x + (actionDir a).1)
                (cur.y + (actionDir a).2)
            · right
              simp [hidx]
            · rcases pre.valRange idx with h | h
              · left
                simpa [hidx] using h
              · right
                simpa [hidx] using h
          · intro n hn
            exact ⟨n, List.mem_append_left _ hn, rfl, rfl, le_refl n.g⟩
          · intro c' hc' _ _
            right
            refine ⟨⟨cur.x + (actionDir a).1, cur.y + (actionDir a).2,
              cur.g + 1, cur.g + 1 + manhQ (cur.x + (actionDir a).1)
                (cur.y + (actionDir a).2) goal.1 goal.2⟩,
              List.mem_append_right _ (by simp), ?_, ?_, ?_⟩
            · rw [hc']
            · rw [hc']
            · exact le_of_eq (show cur.g + 1 = (kc : ℚ) + 1 by rw [pre.curG])
        | some ex =>
          dsimp only
          have hfs := findNode_some st.1 _ _ ex hfind
          by_cases hg : cur.g + 1 < ex.g
          · rw [if_pos hg]
            dsimp only
            refine ⟨⟨?_, ?_, ?_, ?_, ?_, ?_, ?_, pre.startClosed, pre.curG,
              pre.curValid, ⟨lc, hlc', hlcnd, hlcE⟩⟩, ?_, ?_⟩
            · intro m hm
              rcases updateNode_mem_nodup _ _ _ _ st.1 pre.openNodup m hm with
                hm1 | hm1
              · obtain ⟨hmx, hmy, hmg, _⟩ := hm1
                refine ⟨kc + 1, lc ++ [(cur.x + (actionDir a).1,
                  cur.y + (actionDir a).2)], ?_, ?_, hnewnd, ?_⟩
                · rw [hmg, pre.curG]
                  push_cast
                  ring
                · rw [hmx, hmy]
                  exact hnew
                · rw [List.dropLast_concat]
                  exact fun c hc => hlcE c hc
              · obtain ⟨hmem, hpos⟩ := hm1
                obtain ⟨k, l, hg2, hch, hnd, hdrop⟩ := pre.openPaths m hmem
                refine ⟨k, l, hg2, ?_, hnd, hdrop⟩
                refine hpresN (m.x, m.y) k l hch hdrop ?_
                exact flat_ne_of_pos_ne g m.x m.y _ _
                  (pre.openValid m hmem) hvnb hpos
            · intro m hm
              rcases updateNode_mem_nodup _ _ _ _ st.1 pre.openNodup m hm with
                hm1 | hm1
              · obtain ⟨hmx, hmy, hmg, hmf⟩ := hm1
                rw [hmf, hmg, hmx, hmy]
              · exact pre.fDef m hm1.1
            · rw [cameLookup_cameSet_ne]
              · exact pre.noStartCf
              · exact fun heq => h3 (heq ▸ pre.startClosed)
            · intro m hm
              rcases updateNode_mem_nodup _ _ _ _ st.1 pre.openNodup m hm with
                hm1 | hm1
              · rw [hm1.1, hm1.2.1]
                exact hvnb
              · exact pre.openValid m hm1.1
            · rw [updateNode_map_pos]
              exact pre.openNodup
            · intro m hm
              rcases updateNode_mem_nodup _ _ _ _ st.1 pre.openNodup m hm with
                hm1 | hm1
              · rw [hm1.1, hm1.2.1]
                exact h3
              · exact pre.openDisjoint m hm1.1
            · intro idx
              by_cases hidx : idx = g.getFlatIndex (cur.x + (actionDir a).1)
                  (cur.y + (actionDir a).2)
              · right
                simp [hidx]
              · rcases pre.valRange idx with h | h
                · left
                  simpa [hidx] using h
                · right
                  simpa [hidx] using h
            · intro n hn
              by_cases hpos : n.x = cur.x + (actionDir a).1 ∧
                  n.y = cur.y + (actionDir a).2
              · have hnex : n = ex := nodupPos_inj st.1 pre.openNodup n ex hn
                  hfs.1 (by rw [hpos.1, hfs.2.1]) (by rw [hpos.2, hfs.2.2])
                refine ⟨⟨cur.x + (actionDir a).1, cur.y + (actionDir a).2,
                  cur.g + 1, cur.g + 1 + manhQ (cur.x + (actionDir a).1)
                    (cur.y + (actionDir a).2) goal.1 goal.2⟩,
                  updateNode_new_mem _ _ _ _ st.1 ex hfs.1 hfs.2.1 hfs.2.2,
                  ?_, ?_, ?_⟩
                · exact hpos.1.symm
                · exact hpos.2.symm
                · rw [hnex]
                  exact le_of_lt hg
              · exact ⟨n, updateNode_keep _ _ _ _ st.1 n hn hpos, rfl, rfl,
                  le_refl n.g⟩
            · intro c' hc' _ _
              right
              refine ⟨⟨cur.x + (actionDir a).1, cur.y + (actionDir a).2,
                cur.g + 1, cur.g + 1 + manhQ (cur.x + (actionDir a).1)
                  (cur.y + (actionDir a).2) goal.1 goal.2⟩,
                updateNode_new_mem _ _ _ _ st.1 ex hfs.1 hfs.2.1 hfs.2.2,
                ?_, ?_, ?_⟩
              · rw [hc']
              · rw [hc']
              · exact le_of_eq (show cur.g + 1 = (kc : ℚ) + 1 by
                  rw [pre.curG])
          · rw [if_neg hg]
            refine ⟨pre, fun n hn => ⟨n, hn, rfl, rfl, le_refl n.g⟩, ?_⟩
            intro c' hc' _ _
            right
            refine ⟨ex, hfs.1, ?_, ?_, ?_⟩
            · rw [hc']
              exact hfs.2.1
            · rw [hc']
              exact hfs.2.2
            · have h4 : ex.g ≤ cur.g + 1 := le_of_not_lt hg
              rw [pre.curG] at h4
              exact h4

theorem relax_fold (g : GridSystem) (start goal : ℤ × ℤ) (cur : ANode)
    (kc : ℕ) (closedE : List ℤ) :
    ∀ (acts : List ℕ), (∀ a ∈ acts, a < 4) →
    ∀ (st : List ANode × List (ℤ × ℤ × ℚ) × (ℤ → ℚ)),
    RelaxPre g start goal cur kc closedE st.1 st.2.1 st.2.2 →
    RelaxPre g start goal cur kc closedE
      (acts.foldl (astarRelax g goal cur closedE) st).1
      (acts.foldl (astarRelax g goal cur closedE) st).2.1
      (acts.foldl (astarRelax g goal cur closedE) st).2.2 ∧
    (∀ n ∈ st.1, ∃ n' ∈ (acts.foldl (astarRelax g goal cur closedE) st).1,
      n'.x = n.x ∧ n'.y = n.y ∧ n'.g ≤ n.g) ∧
    (∀ a ∈ acts, ∀ c' : ℤ × ℤ,
      c' = (cur.x + (actionDir a).1, cur.y + (actionDir a).2) →
      g.isValid c'.1 c'.2 → g.getCell c'.1 c'.2 ≠ CellType.Wall →
      (g.getFlatIndex c'.1 c'.2 ∈ closedE ∨
        ∃ n ∈ (acts.foldl (astarRelax g goal cur closedE) st).1,
          n.x = c'.1 ∧ n.y = c'.2 ∧ n.g ≤ (kc : ℚ) + 1)) := by
  intro acts
  induction acts with
  | nil =>
    intro _ st hpre
    exact ⟨hpre, fun n hn => ⟨n, hn, rfl, rfl, le_refl n.g⟩,
      fun a haa => absurd haa (List.not_mem_nil a)⟩
  | cons b bs ih =>
    intro hall st hpre
    have hb : b < 4 := hall b (List.mem_cons_self b bs)
    obtain ⟨hpre1, hmono1, hfront1⟩ :=
      relax_step g start goal cur kc closedE st b hb hpre
    obtain ⟨hpre2, hmono2, hfront2⟩ :=
      ih (fun a haa => hall a (List.mem_cons_of_mem b haa))
        (astarRelax g goal cur closedE st b) hpre1
    rw [List.foldl_cons]
    refine ⟨hpre2, ?_, ?_⟩
    · intro n hn
      obtain ⟨n1, hn1, hx1, hy1, hg1⟩ := hmono1 n hn
      obtain ⟨n2, hn2, hx2, hy2, hg2⟩ := hmono2 n1 hn1
      exact ⟨n2, hn2, hx2.trans hx1, hy2.trans hy1, hg2.trans hg1⟩
    · intro a haa c' hc' hval hnw
      rcases List.mem_cons.mp haa with haa | haa
      · rcases hfront1 c' (by rw [haa] at hc'; exact hc') hval hnw with
          hcl | ⟨n, hn, hnx, hny, hng⟩
        · exact Or.inl hcl
        · obtain ⟨n2, hn2, hx2, hy2, hg2⟩ := hmono2 n hn
          exact Or.inr ⟨n2, hn2, hx2.trans hnx, hy2.trans hny,
            hg2.trans hng⟩
      · exact hfront2 a haa c' hc' hval hnw

theorem astar_step_inv (g : GridSystem) (start goal : ℤ × ℤ)
    (openList : List ANode) (closed : List ℤ) (cf : List (ℤ × ℤ × ℚ))
    (val : ℤ → ℚ) (inv : AStarInv g start goal openList closed cf val)
    (cur : ANode) (rest : List ANode) (hs : sortByF openList = cur :: rest)
    (hgv : g.isValid goal.1 goal.2)
    (hng : ¬ (cur.x = goal.1 ∧ cur.y = goal.2)) :
    AStarInv g start goal
      (([0, 1, 2, 3].foldl (astarRelax g goal cur
        (g.getFlatIndex cur.x cur.y :: closed)) (rest, cf, val)).1)
      (g.getFlatIndex cur.x cur.y :: closed)
      (([0, 1, 2, 3].foldl (astarRelax g goal cur
        (g.getFlatIndex cur.x cur.y :: closed)) (rest, cf, val)).2.1)
      (([0, 1, 2, 3].foldl (astarRelax g goal cur
        (g.getFlatIndex cur.x cur.y :: closed)) (rest, cf, val)).2.2) := by
  have hcmem : cur ∈ openList := (sortByF_mem cur openList).mp
    (by rw [hs]; exact List.mem_cons_self cur rest)
  have hcvalid := inv.openValid cur hcmem
  have hcnotcl : g.getFlatIndex cur.x cur.y ∉ closed :=
    inv.openDisjoint cur hcmem
  obtain ⟨kc, hcurg, hcdist⟩ :=
    astar_pop_optimal g goal start openList closed cf val inv cur rest hs
  have hndcr : ((cur :: rest).map (fun n => (n.x, n.y))).Nodup := by
    have hp2 : List.Perm ((cur :: rest).map (fun n => (n.x, n.y)))
        (openList.map (fun n => (n.x, n.y))) := by
      rw [← hs]
      exact (sortByF_perm openList).map _
    exact hp2.nodup_iff.mpr inv.openNodup
  have hrest_sub : ∀ n ∈ rest, n ∈ openList := by
    intro n hn
    exact (sortByF_mem n openList).mp
      (by rw [hs]; exact List.mem_cons_of_mem cur hn)
  have hrest_posne : ∀ n ∈ rest, ¬ (n.x = cur.x ∧ n.y = cur.y) := by
    intro n hn hc
    rw [List.map_cons, List.nodup_cons] at hndcr
    refine hndcr.1 ?_
    have hmm : (n.x, n.y) ∈ rest.map (fun n => (n.x, n.y)) :=
      List.mem_map_of_mem _ hn
    rw [hc.1, hc.2] at hmm
    exact hmm
  have hsplit : ∀ n ∈ openList, n = cur ∨ n ∈ rest := by
    intro n hn
    have hmm : n ∈ cur :: rest := by
      rw [← hs]
      exact (sortByF_mem n openList).mpr hn
    exact List.mem_cons.mp hmm
  have hstartE : g.getFlatIndex start.1 start.2 ∈
      g.getFlatIndex cur.x cur.y :: closed := by
    rcases inv.startProtected with h | ⟨_, hall⟩
    · exact List.mem_cons_of_mem _ h
    · have hcc := hall cur hcmem
      rw [← hcc.1, ← hcc.2]
      exact List.mem_cons_self _ _
  obtain ⟨kc0, lc, hgc0, hchainc, hndc, hdropc⟩ := inv.openPaths cur hcmem
  have hkc0 : kc0 = kc := by
    have hq : ((kc0 : ℚ)) = (kc : ℚ) := by rw [← hgc0, ← hcurg]
    exact_mod_cast hq
  rw [hkc0] at hchainc
  have hlcE : ∀ c ∈ lc, g.getFlatIndex c.1 c.2 ∈
      g.getFlatIndex cur.x cur.y :: closed := by
    intro c hc
    have hsplit2 := (cameRealL_getLast_mem g cf start hchainc).2
    rw [hsplit2] at hc
    rcases List.mem_append.mp hc with hc | hc
    · exact List.mem_cons_of_mem _ (hdropc c hc)
    · have hcc : c = (cur.x, cur.y) := by simpa using hc
      rw [hcc]
      exact List.mem_cons_self _ _
  have hpre : RelaxPre g start goal cur kc
      (g.getFlatIndex cur.x cur.y :: closed) rest cf val := by
    refine ⟨?_, ?_, inv.noStartCf, ?_, ?_, ?_, inv.valRange, hstartE,
      hcurg, hcvalid, ⟨lc, hchainc, hndc, hlcE⟩⟩
    · intro n hn
      obtain ⟨k, l, hg2, hch, hnd, hdrop⟩ := inv.openPaths n (hrest_sub n hn)
      exact ⟨k, l, hg2, hch, hnd,
        fun c hc => List.mem_cons_of_mem _ (hdrop c hc)⟩
    · exact fun n hn => inv.fDef n (hrest_sub n hn)
    · exact fun n hn => inv.openValid n (hrest_sub n hn)
    · rw [List.map_cons, List.nodup_cons] at hndcr
      exact hndcr.2
    · intro n hn hmem
      rcases List.mem_cons.mp hmem with hmem | hmem
      · exact flat_ne_of_pos_ne g n.x n.y cur.x cur.y
          (inv.openValid n (hrest_sub n hn)) hcvalid (hrest_posne n hn) hmem
      · exact inv.openDisjoint n (hrest_sub n hn) hmem
  obtain ⟨hpost, hmono, hfront⟩ := relax_fold g start goal cur kc
    (g.getFlatIndex cur.x cur.y :: closed) [0, 1, 2, 3]
    (by intro a haa; fin_cases haa <;> omega) (rest, cf, val) hpre
  refine ⟨hpost.openPaths, hpost.fDef, Or.inr hpost.startClosed, ?_,
    hpost.noStartCf, hpost.openValid, hpost.openNodup, hpost.openDisjoint,
    ?_, ?_, Or.inl hpost.startClosed, hpost.valRange⟩
  · -- closedFrontier for the extended closed list
    intro cIdx' hcIdx'
    rcases List.mem_cons.mp hcIdx' with hE | hE
    · refine ⟨(cur.x, cur.y), kc, by rw [hE], hcvalid, hcdist, ?_⟩
      intro a ha4 c' hc' hval hnw
      have hamem : a ∈ [0, 1, 2, 3] := by
        interval_cases a <;> simp
      exact hfront a hamem c' hc' hval hnw
    · obtain ⟨c, k, hcf1, hcf2, hcf3, hcf4⟩ := inv.closedFrontier cIdx' hE
      refine ⟨c, k, hcf1, hcf2, hcf3, ?_⟩
      intro a ha4 c' hc' hval hnw
      rcases hcf4 a ha4 c' hc' hval hnw with hcl | ⟨n, hnmem, hnx, hny, hngb⟩
      · exact Or.inl (List.mem_cons_of_mem _ hcl)
      · rcases hsplit n hnmem with hcur | hrest
        · left
          rw [← hnx, ← hny, hcur]
          exact List.mem_cons_self _ _
        · obtain ⟨n2, hn2, hx2, hy2, hg2⟩ := hmono n hrest
          exact Or.inr ⟨n2, hn2, hx2.trans hnx, hy2.trans hny,
            hg2.trans hngb⟩
  · exact List.nodup_cons.mpr ⟨hcnotcl, inv.closedNodup⟩
  · -- the goal cell stays unclosed
    intro hmem
    rcases List.mem_cons.mp hmem with hmem | hmem
    · obtain ⟨he1, he2⟩ := flat_inj g goal.1 goal.2 cur.x cur.y hgv hcvalid hmem
      exact hng ⟨he1.symm, he2.symm⟩
    · exact inv.goalOpen hmem

theorem closed_length_le (g : GridSystem) (start goal : ℤ × ℤ)
    (openList : List ANode) (closed : List ℤ) (cf : List (ℤ × ℤ × ℚ))
    (val : ℤ → ℚ) (inv : AStarInv g start goal openList closed cf val) :
    closed.length ≤ g.width * g.height := by
  have hsub : ∀ i ∈ closed,
      i ∈ Finset.Ico (0 : ℤ) ((g.width : ℤ) * (g.height : ℤ)) := by
    intro i hi
    obtain ⟨c, k, hc1, hc2, _, _⟩ := inv.closedFrontier i hi
    obtain ⟨hb1, hb2, _, _⟩ := flat_decode g c.1 c.2 hc2
    rw [← hc1]
    exact Finset.mem_Ico.mpr ⟨hb1, hb2⟩
  have h1 : closed.toFinset.card = closed.length :=
    List.toFinset_card_of_nodup inv.closedNodup
  have h2 : closed.toFinset ⊆
      Finset.Ico (0 : ℤ) ((g.width : ℤ) * (g.height : ℤ)) := by
    intro i hi
    exact hsub i (List.mem_toFinset.mp hi)
  have h3 := Finset.card_le_card h2
  rw [h1] at h3
  have h4 : (Finset.Ico (0 : ℤ) ((g.width : ℤ) * (g.height : ℤ))).card =
      g.width * g.height := by
    rw [Int.card_Ico, sub_zero]
    rw [show (g.width : ℤ) * (g.height : ℤ) =
      ((g.width * g.height : ℕ) : ℤ) by push_cast; ring]
    exact Int.toNat_natCast _
  rw [h4] at h3
  exact h3

theorem astarLoop_finds (g : GridSystem) (start goal : ℤ × ℤ)
    (hgv : g.isValid goal.1 goal.2) (hreach : ReachesP g start goal) :
    ∀ (fuel : ℕ) (openList : List ANode) (closed : List ℤ)
      (cf : List (ℤ × ℤ × ℚ)) (pol val : ℤ → ℚ),
    AStarInv g start goal openList closed cf val →
    g.width * g.height + 1 ≤ fuel + closed.length →
    ∃ (l : List (ℤ × ℤ)) (k : ℕ),
      PathFromTo g start goal l ∧ l.length = k + 1 ∧ IsDist g start goal k ∧
      (∀ idx, (astarLoop g goal fuel openList closed cf pol val).2 idx = 1 ↔
        ∃ c ∈ l, idx = g.getFlatIndex c.1 c.2) ∧
      List.Chain' (fun p q => ∃ a, a < 4 ∧
        q = (p.1 + (actionDir a).1, p.2 + (actionDir a).2) ∧
        (astarLoop g goal fuel openList closed cf pol val).1
          (g.getFlatIndex p.1 p.2) = actionAngle a) l := by
  intro fuel
  induction fuel with
  | zero =>
    intro openList closed cf pol val inv hfuel
    have hle := closed_length_le g start goal openList closed cf val inv
    omega
  | succ f ih =>
    intro openList closed cf pol val inv hfuel
    unfold astarLoop
    cases hs : sortByF openList with
    | nil =>
      exfalso
      have hopennil : openList = [] := by
        have hperm := sortByF_perm openList
        rw [hs] at hperm
        exact hperm.symm.eq_nil
      obtain ⟨kd, hkd⟩ := dist_exists g start goal hreach
      obtain ⟨n, hn, _⟩ := astar_cover g goal start openList closed cf val
        inv goal kd hkd inv.goalOpen
      rw [hopennil] at hn
      exact List.not_mem_nil n hn
    | cons cur rest =>
      dsimp only
      have hcmem : cur ∈ openList := (sortByF_mem cur openList).mp
        (by rw [hs]; exact List.mem_cons_self cur rest)
      by_cases hgoal : cur.x = goal.1 ∧ cur.y = goal.2
      · -- the goal has been popped: the result is reconstructPath
        rw [if_pos hgoal]
        obtain ⟨kc, hcurg, hcdist⟩ :=
          astar_pop_optimal g goal start openList closed cf val inv cur rest hs
        obtain ⟨kc0, lch, hg0, hchain, hnd, hdrop⟩ := inv.openPaths cur hcmem
        have hkc0 : kc0 = kc := by
          have hq : ((kc0 : ℚ)) = (kc : ℚ) := by rw [← hg0, ← hcurg]
          exact_mod_cast hq
        rw [hkc0] at hchain
        have hcurgoal : ((cur.x, cur.y) : ℤ × ℤ) = goal :=
          Prod.ext hgoal.1 hgoal.2
        have hpath := cameRealL_path g cf start hchain
        have hklen : kc ≤ cf.length := cameRealL_le_cf_length g cf start
          hchain hnd
        obtain ⟨hunt, hmk, hchn⟩ := reconstructWalk_chain g cf start hchain
          hnd (cf.length + 1) (by omega) pol val
        have huntT : ∀ i, (¬ ∃ p ∈ lch.dropLast,
            i = g.getFlatIndex p.1 p.2) →
            (reconstructWalk cf (cf.length + 1)
              (g.getFlatIndex cur.x cur.y) pol val).1 i = pol i ∧
            (reconstructWalk cf (cf.length + 1)
              (g.getFlatIndex cur.x cur.y) pol val).2 i = val i := hunt
        have hmkT : ∀ p ∈ lch.dropLast,
            (reconstructWalk cf (cf.length + 1)
              (g.getFlatIndex cur.x cur.y) pol val).2
              (g.getFlatIndex p.1 p.2) = 1 := hmk
        have hchnT : List.Chain' (fun p q => ∃ a, a < 4 ∧
            q = (p.1 + (actionDir a).1, p.2 + (actionDir a).2) ∧
            (reconstructWalk cf (cf.length + 1)
              (g.getFlatIndex cur.x cur.y) pol val).1
              (g.getFlatIndex p.1 p.2) = actionAngle a) lch := hchn
        have hlast := cameRealL_getLast_mem g cf start hchain
        refine ⟨lch, kc, ?_, hpath.2, ?_, ?_, ?_⟩
        · rw [← hcurgoal]
          exact hpath.1
        · rw [← hcurgoal]
          exact hcdist
        · intro idx
          have hred : (AStarSolver.reconstructPath cf
              (g.getFlatIndex cur.x cur.y) pol val).2 idx =
              if idx = g.getFlatIndex cur.x cur.y then 1
              else (reconstructWalk cf (cf.length + 1)
                (g.getFlatIndex cur.x cur.y) pol val).2 idx := rfl
          rw [hred]
          by_cases hidx : idx = g.getFlatIndex cur.x cur.y
          · rw [if_pos hidx]
            constructor
            · intro _
              exact ⟨(cur.x, cur.y), hlast.1, hidx⟩
            · intro _
              rfl
          · rw [if_neg hidx]
            constructor
            · intro hval1
              by_contra hno
              have hnod : ¬ ∃ p ∈ lch.dropLast,
                  idx = g.getFlatIndex p.1 p.2 := by
                intro ⟨p, hp, hpe⟩
                exact hno ⟨p, List.mem_of_mem_dropLast hp, hpe⟩
              have h2 := (huntT idx hnod).2
              rw [h2] at hval1
              rcases inv.valRange idx with h | h <;> rw [h] at hval1 <;>
                norm_num at hval1
            · intro ⟨c, hc, hce⟩
              have hcd : c ∈ lch.dropLast := by
                rw [hlast.2] at hc
                rcases List.mem_append.mp hc with hc | hc
                · exact hc
                · exfalso
                  have hcc : c = (cur.x, cur.y) := by simpa using hc
                  rw [hcc] at hce
                  exact hidx hce
              rw [hce]
              exact hmkT c hcd
        · have hred1 : (AStarSolver.reconstructPath cf
              (g.getFlatIndex cur.x cur.y) pol val).1 =
              (reconstructWalk cf (cf.length + 1)
                (g.getFlatIndex cur.x cur.y) pol val).1 := rfl
          rw [hred1]
          exact hchnT
      · -- regular expansion step
        rw [if_neg hgoal]
        have hinv' := astar_step_inv g start goal openList closed cf val
          inv cur rest hs hgv hgoal
        have hfuel' : g.width * g.height + 1 ≤
            f + (g.getFlatIndex cur.x cur.y :: closed).length := by
          rw [List.length_cons]
          omega
        exact ih _ _ _ pol _ hinv' hfuel'

theorem astar_init_inv (g : GridSystem) (sx sy : ℤ) (goal : ℤ × ℤ)
    (hv : g.isValid sx sy) :
    AStarInv g (sx, sy) goal
      [⟨sx, sy, 0, manhQ sx sy goal.1 goal.2⟩] [] [] (fun _ => 0) := by
  refine ⟨?_, ?_, ?_, ?_, rfl, ?_, ?_, ?_, ?_, ?_, ?_, ?_⟩
  · intro n hn
    have hne : n = ⟨sx, sy, 0, manhQ sx sy goal.1 goal.2⟩ := by simpa using hn
    refine ⟨0, [(sx, sy)], ?_, ?_, by simp, by simp⟩
    · rw [hne]
      show (0 : ℚ) = ((0 : ℕ) : ℚ)
      norm_num
    · rw [hne]
      exact CameRealL.refl hv rfl
  · intro n hn
    have hne : n = ⟨sx, sy, 0, manhQ sx sy goal.1 goal.2⟩ := by simpa using hn
    rw [hne]
    show manhQ sx sy goal.1 goal.2 = 0 + manhQ sx sy goal.1 goal.2
    rw [zero_add]
  · exact Or.inl ⟨⟨sx, sy, 0, manhQ sx sy goal.1 goal.2⟩, by simp, rfl, rfl,
      rfl⟩
  · intro i hi
    exact absurd hi (List.not_mem_nil i)
  · intro n hn
    have hne : n = ⟨sx, sy, 0, manhQ sx sy goal.1 goal.2⟩ := by simpa using hn
    rw [hne]
    exact hv
  · simp
  · intro n _ h
    exact absurd h (List.not_mem_nil _)
  · exact List.nodup_nil
  · exact List.not_mem_nil _
  · refine Or.inr ⟨rfl, ?_⟩
    intro n hn
    have hne : n = ⟨sx, sy, 0, manhQ sx sy goal.1 goal.2⟩ := by simpa using hn
    rw [hne]
    exact ⟨rfl, rfl⟩
  · intro idx
    exact Or.inl rfl

/-- C7: A* optimality and path marking.  If the row-major goal scan finds
`goal` first, the agent's floor cell is in bounds and `goal` is reachable
from it by 4-connected non-`Wall` moves, then one `AStarSolver.iterate`
call produces a state whose `values` array holds `1.0` at exactly the
cells of `l`, a minimum-length path from the start cell through `goal`
(`l.length = k + 1` with `k` the exact 4-connected distance), and whose
`policy` at each path cell before the goal holds the cardinal angle of the
action pointing to the next path cell. -/
theorem astar_optimality (g : GridSystem) (s : AState) (px pz : ℚ)
    (goal : ℤ × ℤ) (grest : List (ℤ × ℤ))
    (hgl : goalsOf g = goal :: grest)
    (hv : g.isValid ⌊px⌋ ⌊pz⌋)
    (hreach : ReachesP g (⌊px⌋, ⌊pz⌋) goal) :
    ∃ (l : List (ℤ × ℤ)) (k : ℕ),
      PathFromTo g (⌊px⌋, ⌊pz⌋) goal l ∧ l.length = k + 1 ∧
      IsDist g (⌊px⌋, ⌊pz⌋) goal k ∧
      (∀ idx, (AStarSolver.iterate g (some (px, pz)) s).values idx = 1 ↔
        ∃ c ∈ l, idx = g.getFlatIndex c.1 c.2) ∧
      List.Chain' (fun p q => ∃ a, a < 4 ∧
        q = (p.1 + (actionDir a).1, p.2 + (actionDir a).2) ∧
        (AStarSolver.iterate g (some (px, pz)) s).policy
          (g.getFlatIndex p.1 p.2) = actionAngle a) l := by
  have hgmem : goal ∈ goalsOf g := by
    rw [hgl]
    exact List.mem_cons_self goal grest
  have hgv : g.isValid goal.1 goal.2 := (goalsOf_mem g goal hgmem).1
  have hinit := astar_init_inv g ⌊px⌋ ⌊pz⌋ goal hv
  have hloop := astarLoop_finds g (⌊px⌋, ⌊pz⌋) goal hgv hreach
    (g.width * g.height + 1)
    [⟨⌊px⌋, ⌊pz⌋, 0, manhQ ⌊px⌋ ⌊pz⌋ goal.1 goal.2⟩] [] [] (fun _ => 0)
    (fun _ => 0) hinit (by simp)
  unfold AStarSolver.iterate
  dsimp only
  rw [if_neg (not_not.mpr hv), hgl]
  dsimp only
  exact hloop

/-- Witness for the A* optimality theorem: on the 2×2 grid with its goal
at `(1,0)` and the agent at `(1/2, 1/2)` (floor cell `(0,0)`), the goal
scan returns `(1,0)` first, the start is valid, the goal is reachable,
and `iterate` over a prior all-ones state marks a shortest path. -/
theorem astar_optimality_witness :
    goalsOf smallGoalGrid = [(1, 0)] ∧
    smallGoalGrid.isValid ⌊(1/2 : ℚ)⌋ ⌊(1/2 : ℚ)⌋ ∧
    ReachesP smallGoalGrid (⌊(1/2 : ℚ)⌋, ⌊(1/2 : ℚ)⌋) (1, 0) ∧
    ∃ (l : List (ℤ × ℤ)) (k : ℕ),
      PathFromTo smallGoalGrid (⌊(1/2 : ℚ)⌋, ⌊(1/2 : ℚ)⌋) (1, 0) l ∧
      l.length = k + 1 ∧
      IsDist smallGoalGrid (⌊(1/2 : ℚ)⌋, ⌊(1/2 : ℚ)⌋) (1, 0) k ∧
      (∀ idx, (AStarSolver.iterate smallGoalGrid (some (1/2, 1/2))
        onesState).values idx = 1 ↔
        ∃ c ∈ l, idx = smallGoalGrid.getFlatIndex c.1 c.2) ∧
      List.Chain' (fun p q => ∃ a, a < 4 ∧
        q = (p.1 + (actionDir a).1, p.2 + (actionDir a).2) ∧
        (AStarSolver.iterate smallGoalGrid (some (1/2, 1/2))
          onesState).policy (smallGoalGrid.getFlatIndex p.1 p.2)
            = actionAngle a) l := by
  have hfl : (⌊(1/2 : ℚ)⌋ : ℤ) = 0 := by norm_num
  have hgl : goalsOf smallGoalGrid = [(1, 0)] := by decide
  have hv : smallGoalGrid.isValid ⌊(1/2 : ℚ)⌋ ⌊(1/2 : ℚ)⌋ := by
    rw [hfl]
    decide
  have hreach : ReachesP smallGoalGrid (⌊(1/2 : ℚ)⌋, ⌊(1/2 : ℚ)⌋)
      (1, 0) := by
    rw [hfl]
    refine ⟨[(0, 0), (1, 0)], ⟨⟨by simp, ?_, ?_⟩, by simp, by decide⟩⟩
    · intro c hc
      have hcc : ((0 : ℤ), (0 : ℤ)) = c := by simpa using hc
      rw [← hcc]
      decide
    · refine List.chain'_cons.mpr ⟨?_, List.chain'_singleton _⟩
      exact ⟨⟨1, by omega, by decide⟩, by decide, by decide⟩
  exact ⟨hgl, hv, hreach, astar_optimality smallGoalGrid onesState (1/2)
    (1/2) (1, 0) [] hgl hv hreach⟩
